import Mathlib

/-!
# Kanban board synchronisation server (`server.js`)

A shallow embedding of the message handler of `server.js` and of the
board mutations it performs, followed by theorems about them.

Modelling conventions.

* The three process-wide variables `boardData`, `users` and `currentAlert`
  are the three fields of `State`; `handleMessage` is a pure function from
  a state, the connection a message arrived on and the message to the next
  state and the list of side effects, in the order the handler issues them.
* A side effect is a `ws.send` to one connection, a `saveBoardData()`
  (recorded with the board it serialises), a `broadcast(...)` or a
  `logActivity(...)`.
* Identifiers are JSON numbers or strings and are compared with `===`,
  which does not coerce: the number `1` and the string `"1"` differ.
* Messages are well formed for their type: every field the handler reads
  is present.  A message whose `type` matches no `case` is `MsgBody.other`.
* In-place mutation of the object returned by `Array.prototype.find` is
  the update of the first list element satisfying the predicate
  (`modifyFirst`).
* Failures of the file system inside `saveBoardData` and `logActivity` and
  properties `users` inherits from `Object.prototype` are not modelled.
* The server reacts to inputs one at a time (`step`): a connection opens, a
  frame arrives, a connection closes.
* `users` is the list of its properties in the order `for..in` visits them:
  keys that are array indices first, ascending, then the other keys in the
  order of their creation (`setUser`).
-/

namespace Kanban

/-! ## Data model -/

/-- Identifier of a column, a card or a user: a JSON number or a JSON string. -/
inductive Ident where
  | num (n : Int)
  | str (s : String)
deriving DecidableEq, Repr

/-- Card object: `id`, `title` and whatever further fields the client attached. -/
structure Card where
  id : Ident
  title : String
  extra : List (String × String)
deriving DecidableEq, Repr

/-- Column object of `boardData.columns`; `wipLimit: null` is `none`. -/
structure Column where
  id : Ident
  title : String
  wipLimit : Option Nat
  cards : List Card
  collapsed : Bool
deriving DecidableEq, Repr

/-- Value of `boardData`. -/
structure Board where
  columns : List Column
deriving DecidableEq, Repr

/-- User object sent by a client in `user_joined`. -/
structure User where
  id : Ident
  name : String
  color : String
deriving DecidableEq, Repr

/-- Entry of `users`: the user's fields together with the connection `ws`. -/
structure Session where
  user : User
  ws : Nat
deriving DecidableEq, Repr

/-- Process state: the variables `boardData`, `users` and `currentAlert`.
`users` is a JavaScript object; its property keys are strings and it is kept
here as the list of its properties in the order `for..in` visits them. -/
structure State where
  boardData : Board
  users : List (String × Session)
  currentAlert : Option String
deriving DecidableEq, Repr

/-- Payload of an incoming message, one constructor per `case` of the
`switch (data.type)` and `other` for a type that matches no case. -/
inductive MsgBody where
  | user_joined (user : User)
  | get_board
  | card_moved (cardId fromColumnId toColumnId : Ident)
  | card_created (columnId : Ident) (card : Card)
  | card_updated (columnId : Ident) (card : Card)
  | card_deleted (columnId cardId : Ident)
  | card_reordered (columnId : Ident) (cards : List Card)
  | alert_created (alertText : String)
  | alert_cleared
  | reset_board
  | other (type : String)
deriving DecidableEq, Repr

/-- Incoming message `data`: the optional `userId` field and the typed payload. -/
structure Msg where
  userId : Option Ident
  body : MsgBody
deriving DecidableEq, Repr

/-- Object handed to `ws.send` or `broadcast` (before `JSON.stringify`). -/
inductive Event where
  | board_data (data : Board)
  | user_joined (user : User)
  | users_list (users : List (String × User))
  | user_left (userId : String)
  | card_moved (userId : Option Ident) (cardId fromColumnId toColumnId : Ident)
  | card_created (userId : Option Ident) (columnId : Ident) (card : Card)
  | card_updated (userId : Option Ident) (columnId : Ident) (card : Card)
  | card_deleted (userId : Option Ident) (cardId columnId : Ident)
  | card_reordered (userId : Option Ident) (columnId : Ident) (cards : List Card)
  | alert_created (alertText : String)
  | alert_cleared
deriving DecidableEq, Repr

/-- Side effect issued by a handler. -/
inductive Effect where
  | send (ws : Nat) (event : Event)
  | persist (board : Board)
  | broadcast (event : Event)
  | log (action userName details : String)
deriving DecidableEq, Repr

/-! ## Helpers for JavaScript idioms -/

/-- In-place update of the element `Array.prototype.find` returns: the first
element satisfying `p` is replaced by `f` of it, the list is otherwise kept. -/
def modifyFirst {α : Type} (p : α → Bool) (f : α → α) : List α → List α
  | [] => []
  | x :: xs => if p x then f x :: xs else x :: modifyFirst p f xs

/-- Truthiness of an identifier: `0` and `""` are falsy. -/
def truthy : Ident → Bool
  | .num n => n != 0
  | .str s => s != ""

/-- Property key an identifier is converted to when it indexes `users`. -/
def keyOf : Ident → String
  | .num n => toString n
  | .str s => s

/-- Value of `users[key]`. -/
def lookupUser (users : List (String × Session)) (key : String) : Option Session :=
  (users.find? (fun e => e.1 == key)).map (fun e => e.2)

/-- Array index a property key denotes, if it denotes one: the key is a
decimal numeral without sign and without leading zero, below `2^32 - 1`. -/
def arrayIndex? (key : String) : Option Nat :=
  let digits := key.data
  if digits.all Char.isDigit && !digits.isEmpty
      && (digits.length == 1 || digits.head? != some '0') then
    let n := digits.foldl (fun acc c => 10 * acc + (c.toNat - 48)) 0
    if n < 4294967295 then some n else none
  else none

/-- Order in which the properties of an object are enumerated: a new key
`key` comes before an existing key `other` when `key` is an array index and
`other` is a larger array index or no array index. -/
def precedes (key other : String) : Bool :=
  match arrayIndex? key, arrayIndex? other with
  | some n, some m => n < m
  | some _, none => true
  | none, _ => false

/-- Creation of the property `key`: array indices are kept first, in
ascending order, the other keys follow in the order of their creation. -/
def insertUser (key : String) (session : Session) :
    List (String × Session) → List (String × Session)
  | [] => [(key, session)]
  | e :: rest =>
    if precedes key e.1 then (key, session) :: e :: rest
    else e :: insertUser key session rest

/-- Assignment `users[key] = session`: overwrites an existing property in
place, otherwise creates the property. -/
def setUser (key : String) (session : Session) (users : List (String × Session)) :
    List (String × Session) :=
  if users.any (fun e => e.1 == key) then
    modifyFirst (fun e => e.1 == key) (fun _ => (key, session)) users
  else insertUser key session users

/-- Test `c.id === cardId` used by every card search. -/
def hasId (cardId : Ident) (c : Card) : Bool := c.id == cardId

/-- Test `col.id === columnId` used by every column search. -/
def isColumn (columnId : Ident) (col : Column) : Bool := col.id == columnId

/-- Test `column.cards.findIndex(c => c.id === cardId) !== -1`. -/
def holdsCard (cardId : Ident) (column : Column) : Bool := column.cards.any (hasId cardId)

/-! ## The template installed by `reset_board` (lines 307-331) -/

/-- Column of the template: no cards, not collapsed. -/
def templateColumn (id : Int) (title : String) (wipLimit : Option Nat) : Column :=
  { id := .num id, title := title, wipLimit := wipLimit, cards := [], collapsed := false }

/-- Board literal assigned by the `reset_board` case. -/
def defaultBoard : Board :=
  { columns := [
      templateColumn 1 "Заказы" none,
      templateColumn 2 "Печать KBA" (some 3),
      templateColumn 3 "Печать Roland" (some 3),
      templateColumn 4 "Тиснение" (some 2),
      templateColumn 5 "УФ" (some 2),
      templateColumn 6 "Ламинация" (some 2),
      templateColumn 7 "Кашировка" (some 2),
      templateColumn 8 "Резка" (some 3),
      templateColumn 9 "Конгрев" (some 2),
      templateColumn 10 "Высечка" (some 2),
      templateColumn 11 "Вырубка БРАУЗ" (some 2),
      templateColumn 12 "Вырубка ЦЕНТУРИОН" (some 2),
      templateColumn 13 "Выборка" (some 2),
      templateColumn 14 "Пленка" (some 2),
      templateColumn 15 "Окошки" (some 2),
      templateColumn 16 "Склейка" (some 3),
      templateColumn 17 "Сверловка" (some 2),
      templateColumn 18 "Брошюровка" (some 2),
      templateColumn 19 "Подрезка" (some 3),
      templateColumn 20 "Упаковка" (some 4),
      templateColumn 21 "Склад" none ] }

/-! ## `applyCardMove` (lines 346-371) -/

/-- The `for (const column of boardData.columns)` loop: the first column
holding a card with the id, and the first such card of it. -/
def findSource (cardId : Ident) : List Column → Option (Column × Card)
  | [] => none
  | column :: rest =>
    match column.cards.find? (hasId cardId) with
    | some card => some (column, card)
    | none => findSource cardId rest

/-- Statement `sourceColumn.cards = sourceColumn.cards.filter(c => c.id !== cardId)`. -/
def removeCard (cardId : Ident) (column : Column) : Column :=
  { column with cards := column.cards.filter (fun c => c.id != cardId) }

/-- Statement `targetColumn.cards.push(card)`. -/
def pushCard (card : Card) (column : Column) : Column :=
  { column with cards := column.cards ++ [card] }

/-- Function `applyCardMove(cardId, fromColumnId, toColumnId)`.  The source
column is the object found by the loop, so it is updated by position; the
target is looked up by id after the removal, and `modifyFirst` leaves the
columns as they are when no column has that id (`if (targetColumn)`). -/
def applyCardMove (b : Board) (cardId _fromColumnId toColumnId : Ident) : Board :=
  match findSource cardId b.columns with
  | none => b
  | some (sourceColumn, card) =>
    if sourceColumn.id ≠ toColumnId then
      let removed := modifyFirst (holdsCard cardId) (removeCard cardId) b.columns
      { columns := modifyFirst (isColumn toColumnId) (pushCard card) removed }
    else b

/-! ## `handleMessage` (lines 132-343) -/

/-- The name used in log entries (lines 133-140). -/
def userNameOf (users : List (String × Session)) (m : Msg) : String :=
  let fromUser : String :=
    match m.body with
    | .user_joined user => if user.name != "" then user.name else "unknown"
    | _ => "unknown"
  match m.userId with
  | none => fromUser
  | some uid =>
    if truthy uid then
      match lookupUser users (keyOf uid) with
      | some session => session.user.name
      | none => fromUser
    else fromUser

/-- Object built by `broadcastUsersList` (lines 384-392). -/
def usersList (users : List (String × Session)) : List (String × User) :=
  users.map (fun e => (e.1, e.2.user))

/-- Replacement `updateColumn.cards[cardIndex] = data.card` at the index
`findIndex` returns. -/
def replaceCard (card : Card) (column : Column) : Column :=
  { column with cards := modifyFirst (hasId card.id) (fun _ => card) column.cards }

/-- Function `handleMessage(ws, data)`: the next state and the effects in
the order they are issued. -/
def handleMessage (st : State) (ws : Nat) (data : Msg) : State × List Effect :=
  let userName := userNameOf st.users data
  match data.body with
  | .user_joined user =>
    let users := setUser (keyOf user.id) { user := user, ws := ws } st.users
    ({ st with users := users },
      [ .send ws (.board_data st.boardData),
        .broadcast (.user_joined user),
        .broadcast (.users_list (usersList users)),
        .log "CONNECT" user.name "Пользователь подключился" ])
  | .get_board => (st, [ .send ws (.board_data st.boardData) ])
  | .card_moved cardId fromColumnId toColumnId =>
    let fromColumn := st.boardData.columns.find? (isColumn fromColumnId)
    let toColumn := st.boardData.columns.find? (isColumn toColumnId)
    let card := fromColumn.bind (fun col => col.cards.find? (hasId cardId))
    let board := applyCardMove st.boardData cardId fromColumnId toColumnId
    let logged : List Effect :=
      match card, fromColumn, toColumn with
      | some c, some f, some t =>
        [ .log "MOVE" userName
            ("Переместил карточку \"" ++ c.title ++ "\" из \"" ++ f.title ++ "\" в \""
              ++ t.title ++ "\"") ]
      | _, _, _ => []
    ({ st with boardData := board },
      [ .persist board,
        .broadcast (.card_moved data.userId cardId fromColumnId toColumnId) ] ++ logged)
  | .card_created columnId card =>
    match st.boardData.columns.find? (isColumn columnId) with
    | some column =>
      let board : Board :=
        { columns := modifyFirst (isColumn columnId) (pushCard card) st.boardData.columns }
      ({ st with boardData := board },
        [ .persist board,
          .broadcast (.card_created data.userId columnId card),
          .log "CREATE" userName
            ("Создал карточку \"" ++ card.title ++ "\" в колонке \"" ++ column.title ++ "\"") ])
    | none => (st, [])
  | .card_updated columnId card =>
    match st.boardData.columns.find? (isColumn columnId) with
    | some updateColumn =>
      if updateColumn.cards.any (hasId card.id) then
        let board : Board :=
          { columns := modifyFirst (isColumn columnId) (replaceCard card) st.boardData.columns }
        ({ st with boardData := board },
          [ .persist board,
            .broadcast (.card_updated data.userId columnId card),
            .log "UPDATE" userName
              ("Обновил карточку \"" ++ card.title ++ "\" в колонке \""
                ++ updateColumn.title ++ "\"") ])
      else (st, [])
    | none => (st, [])
  | .card_deleted columnId cardId =>
    match st.boardData.columns.find? (isColumn columnId) with
    | some col =>
      let board : Board :=
        { columns := modifyFirst (isColumn columnId) (removeCard cardId) st.boardData.columns }
      let logged : List Effect :=
        match col.cards.find? (hasId cardId) with
        | some cardToDelete =>
          [ .log "DELETE" userName
              ("Удалил карточку \"" ++ cardToDelete.title ++ "\" из колонке \""
                ++ col.title ++ "\"") ]
        | none => []
      ({ st with boardData := board },
        [ .persist board,
          .broadcast (.card_deleted data.userId cardId columnId) ] ++ logged)
    | none => (st, [])
  | .card_reordered columnId cards =>
    match st.boardData.columns.find? (isColumn columnId) with
    | some reorderColumn =>
      let board : Board :=
        { columns := modifyFirst (isColumn columnId)
            (fun col => { col with cards := cards }) st.boardData.columns }
      ({ st with boardData := board },
        [ .persist board,
          .broadcast (.card_reordered data.userId columnId cards),
          .log "REORDER" userName
            ("Изменил порядок карточек в колонке \"" ++ reorderColumn.title ++ "\"") ])
    | none => (st, [])
  | .alert_created alertText =>
    ({ st with currentAlert := some alertText },
      [ .broadcast (.alert_created alertText),
        .log "ALERT" userName ("Создал оповещение: \"" ++ alertText ++ "\"") ])
  | .alert_cleared =>
    ({ st with currentAlert := none },
      [ .broadcast .alert_cleared,
        .log "ALERT_CLEAR" userName "Очистил оповещение" ])
  | .reset_board =>
    ({ st with boardData := defaultBoard },
      [ .persist defaultBoard,
        .broadcast (.board_data defaultBoard),
        .log "RESET" userName "Сбросил всю доску к начальному состоянию" ])
  | .other _ => (st, [])

/-! ## Observations on boards -/

/-- Every card of the board, column after column. -/
def allCards (b : Board) : List Card := b.columns.flatMap (fun col => col.cards)

/-- Total number of cards summed over all columns. -/
def totalCards (b : Board) : Nat := (b.columns.map (fun col => col.cards.length)).sum

/-- Number of cards on the board whose id is `cardId`. -/
def occurrences (b : Board) (cardId : Ident) : Nat :=
  (b.columns.map (fun col => col.cards.countP (hasId cardId))).sum

/-- Card ids are unique across the whole board. -/
def uniqueCardIds (b : Board) : Prop := ((allCards b).map (fun c => c.id)).Nodup

instance (b : Board) : Decidable (uniqueCardIds b) := by
  unfold uniqueCardIds; infer_instance

/-! ## Sample states -/

/-- Card with id 7 of the sample board. -/
def card7 : Card := { id := .num 7, title := "Flyer", extra := [("priority", "high")] }

/-- Card with id 8 of the sample board. -/
def card8 : Card := { id := .num 8, title := "Poster", extra := [] }

/-- Card with id 9 of the sample board. -/
def card9 : Card := { id := .num 9, title := "Booklet", extra := [] }

/-- Board of three columns: column 1 holds cards 7 and 8, column 2 holds card 9
(and is at its WIP limit), column 3 is empty. -/
def sampleBoard : Board :=
  { columns := [
      { id := .num 1, title := "Orders", wipLimit := none, cards := [card7, card8],
        collapsed := false },
      { id := .num 2, title := "Print", wipLimit := some 1, cards := [card9],
        collapsed := false },
      { id := .num 3, title := "Store", wipLimit := none, cards := [], collapsed := true } ] }

/-- State with the sample board, one registered user and an alert. -/
def sampleState : State :=
  { boardData := sampleBoard,
    users := [("u1", { user := { id := .str "u1", name := "Anna", color := "red" }, ws := 1 })],
    currentAlert := some "Stop" }

/-! ## Start-up (lines 19-66) -/

/-- What `loadBoardData` meets at `DATA_FILE`: no file, a file whose reading or
parsing throws (with the error message), or a file that parses to a board. -/
inductive DataFile where
  | absent
  | failing (message : String)
  | parsed (board : Board)
deriving DecidableEq, Repr

/-- Object literal returned at the end of `loadBoardData` (lines 41-65). -/
def loadDefault : Board :=
  { columns := [
      { id := .num 1, title := "Заказы", wipLimit := none, cards := [], collapsed := false },
      { id := .num 2, title := "Печать KBA", wipLimit := some 3, cards := [],
        collapsed := false },
      { id := .num 3, title := "Печать Roland", wipLimit := some 3, cards := [],
        collapsed := false },
      { id := .num 4, title := "Тиснение", wipLimit := some 2, cards := [], collapsed := false },
      { id := .num 5, title := "УФ", wipLimit := some 2, cards := [], collapsed := false },
      { id := .num 6, title := "Ламинация", wipLimit := some 2, cards := [], collapsed := false },
      { id := .num 7, title := "Кашировка", wipLimit := some 2, cards := [], collapsed := false },
      { id := .num 8, title := "Резка", wipLimit := some 3, cards := [], collapsed := false },
      { id := .num 9, title := "Конгрев", wipLimit := some 2, cards := [], collapsed := false },
      { id := .num 10, title := "Высечка", wipLimit := some 2, cards := [], collapsed := false },
      { id := .num 11, title := "Вырубка БРАУЗ", wipLimit := some 2, cards := [],
        collapsed := false },
      { id := .num 12, title := "Вырубка ЦЕНТУРИОН", wipLimit := some 2, cards := [],
        collapsed := false },
      { id := .num 13, title := "Выборка", wipLimit := some 2, cards := [], collapsed := false },
      { id := .num 14, title := "Пленка", wipLimit := some 2, cards := [], collapsed := false },
      { id := .num 15, title := "Окошки", wipLimit := some 2, cards := [], collapsed := false },
      { id := .num 16, title := "Склейка", wipLimit := some 3, cards := [], collapsed := false },
      { id := .num 17, title := "Сверловка", wipLimit := some 2, cards := [],
        collapsed := false },
      { id := .num 18, title := "Брошюровка", wipLimit := some 2, cards := [],
        collapsed := false },
      { id := .num 19, title := "Подрезка", wipLimit := some 3, cards := [], collapsed := false },
      { id := .num 20, title := "Упаковка", wipLimit := some 4, cards := [], collapsed := false },
      { id := .num 21, title := "Склад", wipLimit := none, cards := [], collapsed := false } ] }

/-- Function `loadBoardData()`: the board it returns and what it logs. -/
def loadBoardData : DataFile → Board × List Effect
  | .parsed board => (board, [])
  | .failing message =>
    (loadDefault, [ .log "ERROR" "system" ("Ошибка загрузки данных: " ++ message) ])
  | .absent => (loadDefault, [])

/-- State after the top-level statements of lines 20-26. -/
def initialState (file : DataFile) : State :=
  { boardData := (loadBoardData file).1, users := [], currentAlert := none }

/-! ## Connection life cycle (lines 93-129) -/

/-- Body of the `connection` callback before the handlers are registered:
the alert replay guarded by `if (currentAlert)`, a truthiness test. -/
def onConnection (st : State) (ws : Nat) : List Effect :=
  match st.currentAlert with
  | some alertText =>
    if alertText != "" then [ .send ws (.alert_created alertText) ] else []
  | none => []

/-- The `close` callback: the loop stops at the first entry of `users` whose
`ws` is the closed connection, logs, broadcasts `user_left` and deletes that
entry.  The list `users` is in the order of the `for..in` loop. -/
def onClose (st : State) (ws : Nat) : State × List Effect :=
  match st.users.find? (fun e => e.2.ws == ws) with
  | some e =>
    ({ st with users := st.users.eraseP (fun e => e.2.ws == ws) },
      [ .log "DISCONNECT" e.2.user.name "Пользователь отключился",
        .broadcast (.user_left e.1) ])
  | none => (st, [])

/-- Event the server reacts to: a connection opens, a frame arrives on a
connection (a well-formed message, or one on which `JSON.parse` throws), a
connection closes. -/
inductive Input where
  | connection (ws : Nat)
  | message (ws : Nat) (data : Msg)
  | malformed (ws : Nat) (error : String)
  | close (ws : Nat)
deriving DecidableEq, Repr

/-- Reaction of the server to one input. -/
def step (st : State) : Input → State × List Effect
  | .connection ws => (st, onConnection st ws)
  | .message ws data => handleMessage st ws data
  | .malformed _ error =>
    (st, [ .log "ERROR" "unknown" ("Ошибка обработки сообщения: " ++ error) ])
  | .close ws => onClose st ws

/-- State after a finite sequence of inputs. -/
def run (st : State) : List Input → State
  | [] => st
  | i :: rest => run (step st i).1 rest

/-- An input that is an `alert_created` or `alert_cleared` message. -/
def isAlertInput : Input → Bool
  | .message _ data =>
    match data.body with
    | .alert_created _ => true
    | .alert_cleared => true
    | _ => false
  | _ => false

/-! ## Delivery (lines 374-381) -/

/-- Value of `client.readyState`. -/
inductive ReadyState where
  | CONNECTING
  | OPEN
  | CLOSING
  | CLOSED
deriving DecidableEq, Repr

/-- Member of `wss.clients`. -/
structure Client where
  ws : Nat
  readyState : ReadyState
deriving DecidableEq, Repr

/-- Function `broadcast(message)`: one delivery of the message to every client
whose `readyState` is `OPEN`. -/
def broadcast (clients : List Client) (message : Event) : List (Nat × Event) :=
  (clients.filter (fun client => client.readyState == .OPEN)).map
    (fun client => (client.ws, message))

/-- Everything the effects of one handler deliver, as pairs of connection
and event. -/
def deliveries (clients : List Client) : List Effect → List (Nat × Event)
  | [] => []
  | .send ws event :: rest => (ws, event) :: deliveries clients rest
  | .broadcast event :: rest => broadcast clients event ++ deliveries clients rest
  | .persist _ :: rest => deliveries clients rest
  | .log _ _ _ :: rest => deliveries clients rest

/-! ## Predicates used in the statements -/

/-- Message types that mutate the board. -/
def isBoardMutation : MsgBody → Bool
  | .card_moved _ _ _ => true
  | .card_created _ _ => true
  | .card_updated _ _ => true
  | .card_deleted _ _ => true
  | .card_reordered _ _ => true
  | .reset_board => true
  | _ => false

/-- Message types that mutate the board or the alert. -/
def isMutation : MsgBody → Bool
  | .alert_created _ => true
  | .alert_cleared => true
  | body => isBoardMutation body

/-- A message that cannot introduce a second card with an id: a `card_created`
carries an id that is on no column, a `card_reordered` supplies the ids of the
named column in some order; no condition on the other messages. -/
def keepsIds (b : Board) : MsgBody → Prop
  | .card_created _ card => ∀ c ∈ allCards b, c.id ≠ card.id
  | .card_reordered columnId cards =>
    ∀ K, b.columns.find? (isColumn columnId) = some K →
      (cards.map (fun c => c.id)).Perm (K.cards.map (fun c => c.id))
  | _ => True

/-- Every message of the sequence satisfies `keepsIds` on the board it meets. -/
def admissible (st : State) : List Input → Prop
  | [] => True
  | .message ws data :: rest =>
    keepsIds st.boardData data.body ∧ admissible (handleMessage st ws data).1 rest
  | i :: rest => admissible (step st i).1 rest

/-- Column with its `wipLimit` made absent. -/
def clearLimit (col : Column) : Column := { col with wipLimit := none }

/-- Board with every `wipLimit` made absent. -/
def clearLimits (b : Board) : Board := { columns := b.columns.map clearLimit }

/-- Fields of a column other than its cards. -/
def frame (col : Column) : Ident × String × Option Nat × Bool :=
  (col.id, col.title, col.wipLimit, col.collapsed)

/-- Clients of the sample: 1 and 2 are open, 3 is closing, 4 is closed. -/
def sampleClients : List Client :=
  [ { ws := 1, readyState := .OPEN }, { ws := 2, readyState := .OPEN },
    { ws := 3, readyState := .CLOSING }, { ws := 4, readyState := .CLOSED } ]

/-- Board on which the id 7 occurs twice: once in column 1, once in column 2. -/
def twinBoard : Board :=
  { columns := [
      { id := .num 1, title := "Orders", wipLimit := none, cards := [card7],
        collapsed := false },
      { id := .num 2, title := "Print", wipLimit := some 1, cards := [card7],
        collapsed := false } ] }

/-! ## Lemmas on `modifyFirst` -/

theorem modifyFirst_of_forall_not {α : Type} (p : α → Bool) (f : α → α) (l : List α)
    (h : ∀ x ∈ l, p x = false) : modifyFirst p f l = l := by
  induction l with
  | nil => rfl
  | cons x xs ih =>
    have hx : p x = false := h x (List.mem_cons_self x xs)
    have hxs : ∀ y ∈ xs, p y = false := fun y hy => h y (List.mem_cons_of_mem x hy)
    simp [modifyFirst, hx, ih hxs]

theorem modifyFirst_split {α : Type} (p : α → Bool) (f : α → α) (pre post : List α) (x : α)
    (hpre : ∀ y ∈ pre, p y = false) (hx : p x = true) :
    modifyFirst p f (pre ++ x :: post) = pre ++ f x :: post := by
  induction pre with
  | nil => simp [modifyFirst, hx]
  | cons y ys ih =>
    have hy : p y = false := hpre y (List.mem_cons_self y ys)
    have hys : ∀ z ∈ ys, p z = false := fun z hz => hpre z (List.mem_cons_of_mem y hz)
    simp [modifyFirst, hy, ih hys]

theorem modifyFirst_id_of_fixed {α : Type} (p : α → Bool) (f : α → α) (l : List α)
    (h : ∀ x ∈ l, p x = true → f x = x) : modifyFirst p f l = l := by
  induction l with
  | nil => rfl
  | cons x xs ih =>
    have hxs : ∀ y ∈ xs, p y = true → f y = y :=
      fun y hy => h y (List.mem_cons_of_mem x hy)
    by_cases hx : p x = true
    · simp [modifyFirst, hx, h x (List.mem_cons_self x xs) hx]
    · simp [modifyFirst, hx, ih hxs]

theorem length_modifyFirst {α : Type} (p : α → Bool) (f : α → α) (l : List α) :
    (modifyFirst p f l).length = l.length := by
  induction l with
  | nil => rfl
  | cons x xs ih =>
    by_cases hx : p x = true
    · simp [modifyFirst, hx]
    · simp [modifyFirst, hx, ih]

theorem find?_split {α : Type} (p : α → Bool) (l : List α) (x : α)
    (h : l.find? p = some x) :
    p x = true ∧ ∃ pre post, l = pre ++ x :: post ∧ ∀ y ∈ pre, p y = false := by
  obtain ⟨hx, pre, post, hl, hpre⟩ := List.find?_eq_some.mp h
  refine ⟨hx, pre, post, hl, fun y hy => ?_⟩
  have := hpre y hy
  simpa using this

theorem sum_map_modifyFirst {α : Type} (p : α → Bool) (f : α → α) (g : α → Nat)
    (l : List α) (x : α) (h : l.find? p = some x) :
    ((modifyFirst p f l).map g).sum + g x = (l.map g).sum + g (f x) := by
  obtain ⟨hx, pre, post, rfl, hpre⟩ := find?_split p l x h
  rw [modifyFirst_split p f pre post x hpre hx]
  simp [List.sum_append]
  omega

theorem getElem?_modifyFirst {α : Type} (p : α → Bool) (f : α → α) (l : List α) (i : Nat)
    (x : α) (hi : l[i]? = some x) (hx : p x = true)
    (hlt : ∀ k y, k < i → l[k]? = some y → p y = false) (k : Nat) :
    (modifyFirst p f l)[k]? = if k = i then some (f x) else l[k]? := by
  induction l generalizing i k with
  | nil => simp at hi
  | cons y ys ih =>
    cases i with
    | zero =>
      simp at hi
      subst hi
      cases k with
      | zero => simp [modifyFirst, hx]
      | succ k => simp [modifyFirst, hx]
    | succ i =>
      have hy : p y = false := hlt 0 y (Nat.succ_pos i) (by simp)
      have hi2 : ys[i]? = some x := by simpa using hi
      have hlt2 : ∀ k z, k < i → ys[k]? = some z → p z = false :=
        fun k z hk hz => hlt (k + 1) z (Nat.succ_lt_succ hk) (by simpa using hz)
      cases k with
      | zero => simp [modifyFirst, hy]
      | succ k => simp [modifyFirst, hy, ih i hi2 hlt2 k]

/-! ## Lemmas on the card search -/

theorem holdsCard_iff (cardId : Ident) (col : Column) :
    holdsCard cardId col = true ↔ ∃ c ∈ col.cards, c.id = cardId := by
  simp [holdsCard, hasId]

theorem holdsCard_eq_false_iff (cardId : Ident) (col : Column) :
    holdsCard cardId col = false ↔ ∀ c ∈ col.cards, c.id ≠ cardId := by
  simp [holdsCard, hasId]

theorem findSource_eq (cardId : Ident) (cols : List Column) :
    findSource cardId cols =
      (cols.find? (holdsCard cardId)).bind
        (fun s => (s.cards.find? (hasId cardId)).map (fun c => (s, c))) := by
  induction cols with
  | nil => rfl
  | cons col rest ih =>
    cases hc : col.cards.find? (hasId cardId) with
    | none =>
      have hf : holdsCard cardId col = false := by
        rw [List.find?_eq_none] at hc
        simp only [holdsCard, List.any_eq_false]
        exact hc
      simp [findSource, hc, hf, ih]
    | some c =>
      have hf : holdsCard cardId col = true := by
        simp only [holdsCard, List.any_eq_true]
        exact ⟨c, List.mem_of_find?_eq_some hc, List.find?_some hc⟩
      simp [findSource, hc, hf]

theorem findSource_eq_none_iff (cardId : Ident) (cols : List Column) :
    findSource cardId cols = none ↔ ∀ col ∈ cols, ∀ c ∈ col.cards, c.id ≠ cardId := by
  induction cols with
  | nil => simp [findSource]
  | cons col rest ih =>
    cases hc : col.cards.find? (hasId cardId) with
    | none =>
      have hcol : ∀ c ∈ col.cards, c.id ≠ cardId := by
        rw [List.find?_eq_none] at hc
        intro c hmem
        simpa [hasId] using hc c hmem
      simp only [findSource, hc, ih, List.mem_cons, forall_eq_or_imp]
      exact ⟨fun h => ⟨hcol, h⟩, fun h => h.2⟩
    | some c =>
      simp only [findSource, hc, List.mem_cons, forall_eq_or_imp]
      constructor
      · intro h; cases h
      · intro h
        have h1 := List.find?_some hc
        have h2 := List.mem_of_find?_eq_some hc
        simp only [hasId, beq_iff_eq] at h1
        exact absurd h1 (h.1 c h2)

theorem findSource_eq_some (cardId : Ident) (cols : List Column) (s : Column) (c : Card)
    (h : findSource cardId cols = some (s, c)) :
    cols.find? (holdsCard cardId) = some s ∧ s.cards.find? (hasId cardId) = some c := by
  rw [findSource_eq] at h
  cases hs : cols.find? (holdsCard cardId) with
  | none => simp [hs] at h
  | some s0 =>
    cases hc : s0.cards.find? (hasId cardId) with
    | none => simp [hs, hc] at h
    | some c0 =>
      simp [hs, hc] at h
      obtain ⟨rfl, rfl⟩ := h
      exact ⟨rfl, hc⟩

/-! ## Counting lemmas -/

theorem le_sum_map_of_mem {α : Type} (g : α → Nat) (l : List α) (x : α) (h : x ∈ l) :
    g x ≤ (l.map g).sum := by
  induction l with
  | nil => cases h
  | cons y ys ih =>
    rcases List.mem_cons.mp h with rfl | hmem
    · simp
    · have := ih hmem
      simp only [List.map_cons, List.sum_cons]
      omega

theorem occurrences_eq_countP (b : Board) (cardId : Ident) :
    occurrences b cardId = (allCards b).countP (hasId cardId) := by
  unfold occurrences allCards
  induction b.columns with
  | nil => rfl
  | cons col rest ih => simp [List.flatMap_cons, List.countP_append, ih]

theorem occurrences_eq_count (b : Board) (cardId : Ident) :
    occurrences b cardId = ((allCards b).map (fun c => c.id)).count cardId := by
  rw [occurrences_eq_countP, List.count_eq_countP, List.countP_map]
  rfl

theorem occurrences_eq_one (b : Board) (cardId : Ident) (huniq : uniqueCardIds b)
    (col : Column) (hcol : col ∈ b.columns) (c : Card) (hc : c ∈ col.cards)
    (hid : c.id = cardId) : occurrences b cardId = 1 := by
  rw [occurrences_eq_count]
  apply List.count_eq_one_of_mem huniq
  rw [List.mem_map]
  refine ⟨c, ?_, hid⟩
  unfold allCards
  rw [List.mem_flatMap]
  exact ⟨col, hcol, hc⟩

theorem countP_hasId_removeCard (cardId : Ident) (col : Column) :
    (removeCard cardId col).cards.countP (hasId cardId) = 0 := by
  rw [List.countP_eq_zero]
  intro c hc
  simp only [removeCard, List.mem_filter] at hc
  simpa [hasId] using hc.2

theorem length_removeCard (cardId : Ident) (col : Column) :
    (removeCard cardId col).cards.length + col.cards.countP (hasId cardId)
      = col.cards.length := by
  simp only [removeCard]
  induction col.cards with
  | nil => rfl
  | cons c cs ih =>
    by_cases h : c.id = cardId
    · simp [List.filter_cons, hasId, h] at ih ⊢
      omega
    · simp [List.filter_cons, hasId, h] at ih ⊢
      omega

/-! ## Moves -/

theorem find?_isColumn_modifyFirst (columnId : Ident) (p : Column → Bool)
    (f : Column → Column) (hf : ∀ col, (f col).id = col.id) (cols : List Column) :
    ((modifyFirst p f cols).find? (isColumn columnId)).isSome
      = (cols.find? (isColumn columnId)).isSome := by
  induction cols with
  | nil => rfl
  | cons col rest ih =>
    by_cases hp : p col = true
    · by_cases hc : col.id = columnId
      · simp [modifyFirst, hp, isColumn, hc, hf]
      · simp [modifyFirst, hp, isColumn, hc, hf]
    · by_cases hc : col.id = columnId
      · simp [modifyFirst, hp, isColumn, hc]
      · simp only [modifyFirst, hp]
        simp only [isColumn] at ih
        simp [isColumn, hc, ih]

/-- Joint description of a move that takes place: the source is the first
holder, the target the first column with the id after the removal. -/
theorem applyCardMove_moved (b : Board) (cardId fromColumnId toColumnId : Ident)
    (s : Column) (c : Card) (hsrc : findSource cardId b.columns = some (s, c))
    (hne : s.id ≠ toColumnId) :
    applyCardMove b cardId fromColumnId toColumnId =
      { columns := modifyFirst (isColumn toColumnId) (pushCard c)
          (modifyFirst (holdsCard cardId) (removeCard cardId) b.columns) } := by
  simp [applyCardMove, hsrc, hne]

/-- C1. Move invariant: on a board with unique card ids, moving a card held
by column `fromColumnId` to another existing column `toColumnId` leaves it
exactly once on the board, in a column with id `toColumnId` and in no column
with id `fromColumnId`, and keeps the total number of cards. -/
theorem card_moved_invariant (st : State) (ws : Nat) (userId : Option Ident)
    (cardId fromColumnId toColumnId : Ident)
    (huniq : uniqueCardIds st.boardData)
    (hA : ∃ colA ∈ st.boardData.columns,
      colA.id = fromColumnId ∧ ∃ c ∈ colA.cards, c.id = cardId)
    (hB : ∃ colB ∈ st.boardData.columns, colB.id = toColumnId)
    (hne : toColumnId ≠ fromColumnId) :
    occurrences (handleMessage st ws
        ⟨userId, .card_moved cardId fromColumnId toColumnId⟩).1.boardData cardId = 1 ∧
    (∃ col ∈ (handleMessage st ws
        ⟨userId, .card_moved cardId fromColumnId toColumnId⟩).1.boardData.columns,
      col.id = toColumnId ∧ ∃ c ∈ col.cards, c.id = cardId) ∧
    (∀ col ∈ (handleMessage st ws
        ⟨userId, .card_moved cardId fromColumnId toColumnId⟩).1.boardData.columns,
      (∃ c ∈ col.cards, c.id = cardId) → col.id = toColumnId ∧ col.id ≠ fromColumnId) ∧
    totalCards (handleMessage st ws
        ⟨userId, .card_moved cardId fromColumnId toColumnId⟩).1.boardData
      = totalCards st.boardData := by
  obtain ⟨colA, hAmem, hAid, c0, hc0, hc0id⟩ := hA
  obtain ⟨colB, hBmem, hBid⟩ := hB
  have hocc : occurrences st.boardData cardId = 1 :=
    occurrences_eq_one st.boardData cardId huniq colA hAmem c0 hc0 hc0id
  -- the source found by the search
  cases hsrc : findSource cardId st.boardData.columns with
  | none =>
    rw [findSource_eq_none_iff] at hsrc
    exact absurd hc0id (hsrc colA hAmem c0 hc0)
  | some sc =>
    obtain ⟨s, c⟩ := sc
    obtain ⟨hfs, hfc⟩ := findSource_eq_some cardId _ s c hsrc
    have hcid : c.id = cardId := by simpa [hasId] using List.find?_some hfc
    have hcmem : c ∈ s.cards := List.mem_of_find?_eq_some hfc
    have hsmem : s ∈ st.boardData.columns := List.mem_of_find?_eq_some hfs
    have hcount_s : 1 ≤ s.cards.countP (hasId cardId) := by
      apply List.countP_pos_iff.mpr
      exact ⟨c, hcmem, by simp [hasId, hcid]⟩
    -- removal
    have hrem := sum_map_modifyFirst (holdsCard cardId) (removeCard cardId)
      (fun col => col.cards.countP (hasId cardId)) st.boardData.columns s hfs
    simp only [countP_hasId_removeCard] at hrem
    have hocc' : (st.boardData.columns.map
        (fun col => col.cards.countP (hasId cardId))).sum = 1 := hocc
    have hcount_s1 : s.cards.countP (hasId cardId) = 1 := by omega
    have hocc1 : ((modifyFirst (holdsCard cardId) (removeCard cardId)
        st.boardData.columns).map (fun col => col.cards.countP (hasId cardId))).sum = 0 := by
      omega
    -- the source is the column named by the message
    have hsid : s.id = fromColumnId := by
      by_contra hcon
      have hAs : colA ≠ s := fun h => hcon (h ▸ hAid)
      obtain ⟨_, pre, post, hsplit, hpre⟩ := find?_split _ _ _ hfs
      have hAcount : 1 ≤ colA.cards.countP (hasId cardId) :=
        List.countP_pos_iff.mpr ⟨c0, hc0, by simp [hasId, hc0id]⟩
      rw [hsplit] at hAmem hocc'
      simp only [List.map_append, List.map_cons, List.sum_append, List.sum_cons] at hocc'
      rcases List.mem_append.mp hAmem with h | h
      · have := hpre colA h
        rw [holdsCard_eq_false_iff] at this
        exact this c0 hc0 hc0id
      · rcases List.mem_cons.mp h with h | h
        · exact hAs h
        · have hle : colA.cards.countP (hasId cardId)
              ≤ (post.map (fun col => col.cards.countP (hasId cardId))).sum :=
            le_sum_map_of_mem (fun col => col.cards.countP (hasId cardId)) post colA h
          omega
    have hsne : s.id ≠ toColumnId := by rw [hsid]; exact fun h => hne h.symm
    -- the target after the removal
    have htgt : ∃ t, (modifyFirst (holdsCard cardId) (removeCard cardId)
        st.boardData.columns).find? (isColumn toColumnId) = some t := by
      apply Option.isSome_iff_exists.mp
      rw [find?_isColumn_modifyFirst toColumnId (holdsCard cardId) (removeCard cardId)
        (fun _ => rfl)]
      rw [List.find?_isSome]
      exact ⟨colB, hBmem, by simp [isColumn, hBid]⟩
    obtain ⟨t, ht⟩ := htgt
    have htid : t.id = toColumnId := by simpa [isColumn] using List.find?_some ht
    have hpush : ((modifyFirst (isColumn toColumnId) (pushCard c)
          (modifyFirst (holdsCard cardId) (removeCard cardId) st.boardData.columns)).map
          (fun col => col.cards.countP (hasId cardId))).sum
        + t.cards.countP (hasId cardId)
        = ((modifyFirst (holdsCard cardId) (removeCard cardId) st.boardData.columns).map
          (fun col => col.cards.countP (hasId cardId))).sum
        + (pushCard c t).cards.countP (hasId cardId) :=
      sum_map_modifyFirst (isColumn toColumnId) (pushCard c)
        (fun col => col.cards.countP (hasId cardId)) _ t ht
    have hpushc : (pushCard c t).cards.countP (hasId cardId)
        = t.cards.countP (hasId cardId) + 1 := by
      simp [pushCard, List.countP_append, hasId, hcid]
    have hboard : (handleMessage st ws
        ⟨userId, .card_moved cardId fromColumnId toColumnId⟩).1.boardData
        = { columns := modifyFirst (isColumn toColumnId) (pushCard c)
              (modifyFirst (holdsCard cardId) (removeCard cardId) st.boardData.columns) } := by
      simp only [handleMessage]
      exact applyCardMove_moved st.boardData cardId fromColumnId toColumnId s c hsrc hsne
    rw [hboard]
    obtain ⟨_, pre, post, hsplit, hpre⟩ := find?_split _ _ _ ht
    have hcols : modifyFirst (isColumn toColumnId) (pushCard c)
        (modifyFirst (holdsCard cardId) (removeCard cardId) st.boardData.columns)
        = pre ++ pushCard c t :: post := by
      rw [hsplit]
      exact modifyFirst_split _ _ pre post t hpre (List.find?_some ht)
    refine ⟨?_, ?_, ?_, ?_⟩
    · show ((modifyFirst (isColumn toColumnId) (pushCard c) _).map
          (fun col => col.cards.countP (hasId cardId))).sum = 1
      rw [hpushc] at hpush
      omega
    · refine ⟨pushCard c t, ?_, htid, c, ?_, hcid⟩
      · show pushCard c t ∈ modifyFirst _ _ _
        rw [hcols]; simp
      · simp [pushCard]
    · intro col hcol hholds
      have hcol' : col ∈ pre ++ pushCard c t :: post := by rw [← hcols]; exact hcol
      have hkey : col.id = toColumnId := by
        rcases List.mem_append.mp hcol' with h | h
        · exfalso
          have hin : col ∈ modifyFirst (holdsCard cardId) (removeCard cardId)
              st.boardData.columns := by rw [hsplit]; simp [h]
          have hle : col.cards.countP (hasId cardId) ≤ _ :=
            le_sum_map_of_mem (fun col => col.cards.countP (hasId cardId)) _ col hin
          have hpos : 1 ≤ col.cards.countP (hasId cardId) := by
            obtain ⟨d, hd, hdid⟩ := hholds
            exact List.countP_pos_iff.mpr ⟨d, hd, by simp [hasId, hdid]⟩
          omega
        · rcases List.mem_cons.mp h with h | h
          · rw [h]; exact htid
          · exfalso
            have hin : col ∈ modifyFirst (holdsCard cardId) (removeCard cardId)
                st.boardData.columns := by rw [hsplit]; simp [h]
            have hle : col.cards.countP (hasId cardId) ≤ _ :=
            le_sum_map_of_mem (fun col => col.cards.countP (hasId cardId)) _ col hin
            have hpos : 1 ≤ col.cards.countP (hasId cardId) := by
              obtain ⟨d, hd, hdid⟩ := hholds
              exact List.countP_pos_iff.mpr ⟨d, hd, by simp [hasId, hdid]⟩
            omega
      exact ⟨hkey, by rw [hkey]; exact hne⟩
    · show ((modifyFirst (isColumn toColumnId) (pushCard c) _).map
          (fun col => col.cards.length)).sum
          = (st.boardData.columns.map (fun col => col.cards.length)).sum
      have hlen1 : ((modifyFirst (holdsCard cardId) (removeCard cardId)
            st.boardData.columns).map (fun col => col.cards.length)).sum + s.cards.length
          = (st.boardData.columns.map (fun col => col.cards.length)).sum
            + (removeCard cardId s).cards.length :=
        sum_map_modifyFirst (holdsCard cardId) (removeCard cardId)
          (fun col => col.cards.length) st.boardData.columns s hfs
      have hlen2 : ((modifyFirst (isColumn toColumnId) (pushCard c)
            (modifyFirst (holdsCard cardId) (removeCard cardId) st.boardData.columns)).map
            (fun col => col.cards.length)).sum + t.cards.length
          = ((modifyFirst (holdsCard cardId) (removeCard cardId) st.boardData.columns).map
            (fun col => col.cards.length)).sum + (pushCard c t).cards.length :=
        sum_map_modifyFirst (isColumn toColumnId) (pushCard c)
          (fun col => col.cards.length) _ t ht
      have hl := length_removeCard cardId s
      have hp : (pushCard c t).cards.length = t.cards.length + 1 := by simp [pushCard]
      rw [hp] at hlen2
      omega

/-- Witness of C1 on the sample board: card 7 moves from column 1 to column 2. -/
theorem card_moved_invariant_witness :
    uniqueCardIds sampleState.boardData ∧
    occurrences (handleMessage sampleState 1
        ⟨some (.str "u1"), .card_moved (.num 7) (.num 1) (.num 2)⟩).1.boardData (.num 7) = 1 ∧
    totalCards (handleMessage sampleState 1
        ⟨some (.str "u1"), .card_moved (.num 7) (.num 1) (.num 2)⟩).1.boardData = 3 := by
  have huniq : uniqueCardIds sampleState.boardData := by decide
  have h := card_moved_invariant sampleState 1 (some (.str "u1")) (.num 7) (.num 1) (.num 2)
    huniq (by decide) (by decide) (by decide)
  exact ⟨huniq, h.1, h.2.2.2.trans (by decide)⟩

theorem applyCardMove_noop (b : Board) (cardId fromColumnId toColumnId : Ident)
    (h : (∀ col ∈ b.columns, ∀ c ∈ col.cards, c.id ≠ cardId) ∨
      (∃ s, b.columns.find? (holdsCard cardId) = some s ∧ s.id = toColumnId)) :
    applyCardMove b cardId fromColumnId toColumnId = b := by
  rcases h with h | ⟨s, hs, hid⟩
  · have := (findSource_eq_none_iff cardId b.columns).mpr h
    simp [applyCardMove, this]
  · cases hsrc : findSource cardId b.columns with
    | none => simp [applyCardMove, hsrc]
    | some sc =>
      obtain ⟨s0, c⟩ := sc
      have h0 := (findSource_eq_some cardId _ s0 c hsrc).1
      rw [hs] at h0
      cases h0
      simp [applyCardMove, hsrc, hid]

/-- C2. Move no-op leaves the board unchanged: when no column holds a card
with id `cardId`, or when the column that holds it (the first one in board
order) has id `toColumnId`, the board after handling `card_moved` is the
board before. -/
theorem card_moved_noop_board (st : State) (ws : Nat) (userId : Option Ident)
    (cardId fromColumnId toColumnId : Ident)
    (h : (∀ col ∈ st.boardData.columns, ∀ c ∈ col.cards, c.id ≠ cardId) ∨
      (∃ s, st.boardData.columns.find? (holdsCard cardId) = some s ∧ s.id = toColumnId)) :
    (handleMessage st ws
      ⟨userId, .card_moved cardId fromColumnId toColumnId⟩).1.boardData = st.boardData := by
  simp only [handleMessage]
  exact applyCardMove_noop st.boardData cardId fromColumnId toColumnId h

/-- Witness of C2: card 7 is in column 1 and is moved to column 1 (the client
names column 2 as the source). -/
theorem card_moved_noop_board_witness :
    (∃ s, sampleState.boardData.columns.find? (holdsCard (.num 7)) = some s ∧ s.id = .num 1) ∧
    (handleMessage sampleState 1
      ⟨none, .card_moved (.num 7) (.num 2) (.num 1)⟩).1.boardData = sampleState.boardData :=
  ⟨⟨_, rfl, rfl⟩,
    card_moved_noop_board sampleState 1 none (.num 7) (.num 2) (.num 1)
      (Or.inr ⟨_, rfl, rfl⟩)⟩

/-- C3, as stated, fails: a move of the unknown card 99 persists the board and
broadcasts, and a move of card 7 from column 1 to column 1 also logs MOVE. -/
theorem card_moved_noop_not_silent :
    (∀ col ∈ sampleState.boardData.columns, ∀ c ∈ col.cards, c.id ≠ .num 99) ∧
    (handleMessage sampleState 1 ⟨none, .card_moved (.num 99) (.num 1) (.num 2)⟩).2
      = [ .persist sampleBoard,
          .broadcast (.card_moved none (.num 99) (.num 1) (.num 2)) ] ∧
    (handleMessage sampleState 1 ⟨none, .card_moved (.num 7) (.num 1) (.num 1)⟩).2
      = [ .persist sampleBoard,
          .broadcast (.card_moved none (.num 7) (.num 1) (.num 1)),
          .log "MOVE" "unknown"
            "Переместил карточку \"Flyer\" из \"Orders\" в \"Orders\"" ] := by
  decide

/-- C3, amended. A no-op `card_moved` persists the unchanged board once and
then broadcasts one `card_moved` event repeating the message; anything after
that is a MOVE log entry, and there is none when no column holds the card. -/
theorem card_moved_noop_effects (st : State) (ws : Nat) (userId : Option Ident)
    (cardId fromColumnId toColumnId : Ident)
    (h : (∀ col ∈ st.boardData.columns, ∀ c ∈ col.cards, c.id ≠ cardId) ∨
      (∃ s, st.boardData.columns.find? (holdsCard cardId) = some s ∧ s.id = toColumnId)) :
    ∃ logged : List Effect,
      (handleMessage st ws ⟨userId, .card_moved cardId fromColumnId toColumnId⟩).2
        = [ .persist st.boardData,
            .broadcast (.card_moved userId cardId fromColumnId toColumnId) ] ++ logged ∧
      (∀ e ∈ logged, ∃ userName details, e = .log "MOVE" userName details) ∧
      ((∀ col ∈ st.boardData.columns, ∀ c ∈ col.cards, c.id ≠ cardId) → logged = []) := by
  have hb := applyCardMove_noop st.boardData cardId fromColumnId toColumnId h
  simp only [handleMessage, hb]
  refine ⟨_, rfl, ?_, ?_⟩
  · intro e he
    split at he
    · simp only [List.mem_singleton] at he
      exact ⟨_, _, he⟩
    · cases he
  · intro hnone
    split
    · rename_i c f t hc hf ht
      exfalso
      have hfmem : f ∈ st.boardData.columns := List.mem_of_find?_eq_some hf
      rw [hf] at hc
      simp only [Option.some_bind] at hc
      have hcmem := List.mem_of_find?_eq_some hc
      have hcid := List.find?_some hc
      simp only [hasId, beq_iff_eq] at hcid
      exact hnone f hfmem c hcmem hcid
    · rfl

/-- Witness of C3 amended: the move of the unknown card 99. -/
theorem card_moved_noop_effects_witness :
    ∃ logged : List Effect,
      (handleMessage sampleState 1 ⟨none, .card_moved (.num 99) (.num 1) (.num 2)⟩).2
        = [ .persist sampleState.boardData,
            .broadcast (.card_moved none (.num 99) (.num 1) (.num 2)) ] ++ logged ∧
      (∀ e ∈ logged, ∃ userName details, e = .log "MOVE" userName details) ∧
      ((∀ col ∈ sampleState.boardData.columns, ∀ c ∈ col.cards, c.id ≠ .num 99)
        → logged = []) :=
  card_moved_noop_effects sampleState 1 none (.num 99) (.num 1) (.num 2)
    (Or.inl (by decide))

/-- C4 on the code: moving card 7 to the unknown column 99 removes it from
column 1 and puts it nowhere; the board loses the card. -/
theorem card_moved_unknown_target_loses_card :
    (∀ col ∈ sampleBoard.columns, col.id ≠ .num 99) ∧
    (handleMessage sampleState 1
      ⟨none, .card_moved (.num 7) (.num 1) (.num 99)⟩).1.boardData
      = { columns := [
            { id := .num 1, title := "Orders", wipLimit := none, cards := [card8],
              collapsed := false },
            { id := .num 2, title := "Print", wipLimit := some 1, cards := [card9],
              collapsed := false },
            { id := .num 3, title := "Store", wipLimit := none, cards := [],
              collapsed := true } ] } ∧
    occurrences (handleMessage sampleState 1
      ⟨none, .card_moved (.num 7) (.num 1) (.num 99)⟩).1.boardData (.num 7) = 0 ∧
    totalCards sampleBoard = 3 ∧
    totalCards (handleMessage sampleState 1
      ⟨none, .card_moved (.num 7) (.num 1) (.num 99)⟩).1.boardData = 2 := by
  decide

/-! ## Uniqueness lemmas -/

theorem uniqueCardIds_cons (col : Column) (rest : List Column)
    (h : uniqueCardIds { columns := col :: rest }) :
    (col.cards.map (fun c => c.id)).Nodup ∧ uniqueCardIds { columns := rest } ∧
    ∀ c ∈ col.cards, ∀ col2 ∈ rest, ∀ d ∈ col2.cards, c.id ≠ d.id := by
  unfold uniqueCardIds allCards at h ⊢
  simp only [List.flatMap_cons, List.map_append] at h
  rw [List.nodup_append] at h
  obtain ⟨h1, h2, h3⟩ := h
  refine ⟨h1, h2, ?_⟩
  intro c hc col2 hcol2 d hd heq
  apply h3 (List.mem_map.mpr ⟨c, hc, rfl⟩)
  rw [heq]
  exact List.mem_map.mpr ⟨d, List.mem_flatMap.mpr ⟨col2, hcol2, hd⟩, rfl⟩

theorem nodup_ids_of_getElem? (cols : List Column) (h : uniqueCardIds { columns := cols })
    (i : Nat) (s : Column) (hi : cols[i]? = some s) :
    (s.cards.map (fun c => c.id)).Nodup := by
  induction cols generalizing i with
  | nil => simp at hi
  | cons col rest ih =>
    obtain ⟨h1, h2, _⟩ := uniqueCardIds_cons col rest h
    cases i with
    | zero =>
      simp at hi
      subst hi
      exact h1
    | succ i => exact ih h2 i (by simpa using hi)

theorem unique_holder (cols : List Column) (h : uniqueCardIds { columns := cols })
    (cardId : Ident) (k i : Nat) (x s : Column)
    (hk : cols[k]? = some x) (hi : cols[i]? = some s)
    (hx : holdsCard cardId x = true) (hs : holdsCard cardId s = true) : k = i := by
  induction cols generalizing k i with
  | nil => simp at hi
  | cons col rest ih =>
    obtain ⟨_, h2, h3⟩ := uniqueCardIds_cons col rest h
    rw [holdsCard_iff] at hx hs
    obtain ⟨cx, hcx, hcxid⟩ := hx
    obtain ⟨cs, hcs, hcsid⟩ := hs
    cases k with
    | zero =>
      cases i with
      | zero => rfl
      | succ i =>
        exfalso
        simp at hk
        subst hk
        have hmem : s ∈ rest := List.getElem?_mem (by simpa using hi)
        exact h3 cx hcx s hmem cs hcs (hcxid.trans hcsid.symm)
    | succ k =>
      cases i with
      | zero =>
        exfalso
        simp at hi
        subst hi
        have hmem : x ∈ rest := List.getElem?_mem (by simpa using hk)
        exact h3 cs hcs x hmem cx hcx (hcsid.trans hcxid.symm)
      | succ i =>
        have := ih h2 k i (by simpa using hk) (by simpa using hi)
        omega

theorem find?_of_first {α : Type} (p : α → Bool) (l : List α) (i : Nat) (x : α)
    (hi : l[i]? = some x) (hx : p x = true)
    (hlt : ∀ k y, k < i → l[k]? = some y → p y = false) : l.find? p = some x := by
  induction l generalizing i with
  | nil => simp at hi
  | cons y ys ih =>
    cases i with
    | zero =>
      simp at hi
      subst hi
      simp [hx]
    | succ i =>
      have hy : p y = false := hlt 0 y (Nat.succ_pos i) (by simp)
      have hlt2 : ∀ k z, k < i → ys[k]? = some z → p z = false :=
        fun k z hk hz => hlt (k + 1) z (Nat.succ_lt_succ hk) (by simpa using hz)
      simp [hy, ih i (by simpa using hi) hlt2]

theorem find?_hasId_of_nodup (l : List Card) (h : (l.map (fun c => c.id)).Nodup)
    (c : Card) (hc : c ∈ l) : l.find? (hasId c.id) = some c := by
  induction l with
  | nil => cases hc
  | cons d ds ih =>
    simp only [List.map_cons, List.nodup_cons] at h
    rcases List.mem_cons.mp hc with rfl | hmem
    · simp [hasId]
    · have hne : d.id ≠ c.id := by
        intro heq
        apply h.1
        rw [heq]
        exact List.mem_map_of_mem (fun c => c.id) hmem
      simpa [hasId, hne] using ih h.2 hmem

theorem filter_ne_eq_erase (l : List Card) (h : (l.map (fun c => c.id)).Nodup)
    (c : Card) (hc : c ∈ l) : l.filter (fun d => d.id != c.id) = l.erase c := by
  induction l with
  | nil => cases hc
  | cons d ds ih =>
    simp only [List.map_cons, List.nodup_cons] at h
    by_cases hdc : d = c
    · subst hdc
      have hall : ∀ e ∈ ds, (e.id != d.id) = true := by
        intro e he
        have : e.id ≠ d.id := by
          intro heq
          apply h.1
          rw [← heq]
          exact List.mem_map_of_mem (fun c => c.id) he
        simpa using this
      simp [List.filter_cons, List.filter_eq_self.mpr hall]
    · have hmem : c ∈ ds := by
        rcases List.mem_cons.mp hc with h1 | h1
        · exact absurd h1.symm hdc
        · exact h1
      have hne : d.id ≠ c.id := by
        intro heq
        apply h.1
        rw [heq]
        exact List.mem_map_of_mem (fun c => c.id) hmem
      simp [List.filter_cons, hne, List.erase_cons, hdc, ih h.2 hmem]

/-- C5. Reference description of a move: on a board with unique card ids,
where the column `S` at position `i` holds the card `c` with id `cardId` and
`T` at position `j` is the column with id `toColumnId` (the first one), with
`T.id ≠ S.id`, the board after `card_moved` has at position `i` the column
`S` with `c` erased from its sequence, at position `j` the column `T` with
`c` appended, and at every other position the column it had; this holds for
every `fromColumnId`, so any two values of it give the same board. -/
theorem card_moved_reference (st : State) (ws : Nat) (userId : Option Ident)
    (cardId toColumnId : Ident) (i j : Nat) (S T : Column) (c : Card)
    (huniq : uniqueCardIds st.boardData)
    (hS : st.boardData.columns[i]? = some S) (hc : c ∈ S.cards) (hcid : c.id = cardId)
    (hT : st.boardData.columns[j]? = some T) (hTid : T.id = toColumnId)
    (hTfirst : ∀ k col, k < j → st.boardData.columns[k]? = some col → col.id ≠ toColumnId)
    (hne : toColumnId ≠ S.id) :
    (∀ fromColumnId k,
      (handleMessage st ws
        ⟨userId, .card_moved cardId fromColumnId toColumnId⟩).1.boardData.columns[k]?
        = if k = i then some { S with cards := S.cards.erase c }
          else if k = j then some { T with cards := T.cards ++ [c] }
          else st.boardData.columns[k]?) ∧
    (∀ from1 from2,
      (handleMessage st ws ⟨userId, .card_moved cardId from1 toColumnId⟩).1.boardData
        = (handleMessage st ws ⟨userId, .card_moved cardId from2 toColumnId⟩).1.boardData) := by
  have hSholds : holdsCard cardId S = true := (holdsCard_iff cardId S).mpr ⟨c, hc, hcid⟩
  have hSfirst : ∀ k y, k < i → st.boardData.columns[k]? = some y →
      holdsCard cardId y = false := by
    intro k y hk hy
    cases hh : holdsCard cardId y with
    | false => rfl
    | true =>
      have := unique_holder st.boardData.columns huniq cardId k i y S hy hS hh hSholds
      omega
  have hSnodup := nodup_ids_of_getElem? st.boardData.columns huniq i S hS
  have hfind : st.boardData.columns.find? (holdsCard cardId) = some S :=
    find?_of_first _ _ i S hS hSholds hSfirst
  have hcard : S.cards.find? (hasId cardId) = some c := by
    rw [← hcid]; exact find?_hasId_of_nodup S.cards hSnodup c hc
  have hsrc : findSource cardId st.boardData.columns = some (S, c) := by
    rw [findSource_eq, hfind]
    simp [hcard]
  have hij : j ≠ i := by
    intro h
    rw [h, hS] at hT
    cases hT
    exact hne hTid.symm
  have hrem := getElem?_modifyFirst (holdsCard cardId) (removeCard cardId)
    st.boardData.columns i S hS hSholds hSfirst
  have hT1 : (modifyFirst (holdsCard cardId) (removeCard cardId)
      st.boardData.columns)[j]? = some T := by
    rw [hrem j, if_neg hij]; exact hT
  have hT1first : ∀ k y, k < j →
      (modifyFirst (holdsCard cardId) (removeCard cardId) st.boardData.columns)[k]? = some y →
      isColumn toColumnId y = false := by
    intro k y hk hy
    rw [hrem k] at hy
    by_cases hki : k = i
    · rw [if_pos hki] at hy
      cases hy
      simpa [isColumn, removeCard] using fun h => hne h.symm
    · rw [if_neg hki] at hy
      simpa [isColumn] using hTfirst k y hk hy
  have hpush := getElem?_modifyFirst (isColumn toColumnId) (pushCard c) _ j T hT1
    (by simp [isColumn, hTid]) hT1first
  have hboard : ∀ fromColumnId,
      (handleMessage st ws
        ⟨userId, .card_moved cardId fromColumnId toColumnId⟩).1.boardData
        = { columns := modifyFirst (isColumn toColumnId) (pushCard c)
              (modifyFirst (holdsCard cardId) (removeCard cardId) st.boardData.columns) } := by
    intro fromColumnId
    simp only [handleMessage]
    exact applyCardMove_moved st.boardData cardId fromColumnId toColumnId S c hsrc
      (fun h => hne h.symm)
  constructor
  · intro fromColumnId k
    rw [hboard fromColumnId]
    show (modifyFirst (isColumn toColumnId) (pushCard c) _)[k]? = _
    rw [hpush k, hrem k]
    have herase : (removeCard cardId S) = { S with cards := S.cards.erase c } := by
      simp only [removeCard]
      rw [← hcid, filter_ne_eq_erase S.cards hSnodup c hc]
    by_cases hki : k = i
    · have hkj : k ≠ j := fun h => hij (h.symm.trans hki)
      simp [hki, hij.symm, herase]
    · by_cases hkj : k = j
      · simp [hkj, hij, pushCard]
      · simp [hki, hkj]
  · intro from1 from2
    rw [hboard from1, hboard from2]

/-- Witness of C5 on the sample board: card 7 of column 1 (position 0) is
moved to column 2 (position 1). -/
theorem card_moved_reference_witness :
    uniqueCardIds sampleState.boardData ∧
    (∀ fromColumnId k,
      (handleMessage sampleState 1
        ⟨none, .card_moved (.num 7) fromColumnId (.num 2)⟩).1.boardData.columns[k]?
        = if k = 0 then
            some { id := .num 1, title := "Orders", wipLimit := none,
                   cards := [card7, card8].erase card7, collapsed := false }
          else if k = 1 then
            some { id := .num 2, title := "Print", wipLimit := some 1,
                   cards := [card9] ++ [card7], collapsed := false }
          else sampleState.boardData.columns[k]?) :=
  ⟨by decide,
    (card_moved_reference sampleState 1 none (.num 7) (.num 2) 0 1
      { id := .num 1, title := "Orders", wipLimit := none, cards := [card7, card8],
        collapsed := false }
      { id := .num 2, title := "Print", wipLimit := some 1, cards := [card9],
        collapsed := false }
      card7 (by decide) rfl (by decide) rfl rfl rfl
      (by
        intro k col hk hcol
        have hk0 : k = 0 := by omega
        subst hk0
        cases hcol
        decide)
      (by decide)).1⟩

/-! ## Updates and deletions -/

theorem find?_isColumn_split (columnId : Ident) (pre post : List Column) (K : Column)
    (hpre : ∀ col ∈ pre, col.id ≠ columnId) (hK : K.id = columnId) :
    (pre ++ K :: post).find? (isColumn columnId) = some K ∧
    ∀ f : Column → Column,
      modifyFirst (isColumn columnId) f (pre ++ K :: post) = pre ++ f K :: post := by
  have hpre2 : ∀ col ∈ pre, isColumn columnId col = false := by
    intro col hcol
    simpa [isColumn] using hpre col hcol
  have hK2 : isColumn columnId K = true := by simp [isColumn, hK]
  refine ⟨?_, fun f => modifyFirst_split _ f pre post K hpre2 hK2⟩
  rw [List.find?_eq_some]
  exact ⟨hK2, pre, post, rfl, fun a ha => by simp [hpre2 a ha]⟩

/-- C6. `card_updated` preserves position: when the board is `pre ++ K :: post`
with `K` the column the message names (no column of `pre` has the id) and
`K.cards` is `cpre ++ c :: cpost` with `c` the first card whose id is that of
the supplied card, the board afterwards is `pre ++ K2 :: post` where `K2` is
`K` with card sequence `cpre ++ card :: cpost`: same length, the supplied
card unmodified at the position of `c`, every other card and every other
column as before. -/
theorem card_updated_position (st : State) (ws : Nat) (userId : Option Ident)
    (columnId : Ident) (card : Card) (pre post : List Column) (K : Column)
    (cpre cpost : List Card) (c : Card)
    (hcols : st.boardData.columns = pre ++ K :: post)
    (hpre : ∀ col ∈ pre, col.id ≠ columnId) (hK : K.id = columnId)
    (hcards : K.cards = cpre ++ c :: cpost)
    (hcpre : ∀ d ∈ cpre, d.id ≠ card.id) (hc : c.id = card.id) :
    (handleMessage st ws ⟨userId, .card_updated columnId card⟩).1.boardData.columns
      = pre ++ { K with cards := cpre ++ card :: cpost } :: post ∧
    (cpre ++ card :: cpost).length = K.cards.length ∧
    (cpre ++ card :: cpost)[cpre.length]? = some card := by
  obtain ⟨hfind, hmod⟩ := find?_isColumn_split columnId pre post K hpre hK
  have hany : K.cards.any (hasId card.id) = true := by
    rw [List.any_eq_true]
    exact ⟨c, by rw [hcards]; simp, by simp [hasId, hc]⟩
  have hrep : replaceCard card K = { K with cards := cpre ++ card :: cpost } := by
    simp only [replaceCard, hcards]
    rw [modifyFirst_split (hasId card.id) (fun _ => card) cpre cpost c
      (fun d hd => by simpa [hasId] using hcpre d hd) (by simp [hasId, hc])]
  refine ⟨?_, ?_, ?_⟩
  · simp only [handleMessage, hcols, hfind, hany, if_true, hmod, hrep]
  · rw [hcards]; simp
  · rw [List.getElem?_append_right (Nat.le_refl _)]
    simp

/-- Witness of C6: card 8, second in column 1, is replaced by a card with new
title and fields. -/
theorem card_updated_position_witness :
    (handleMessage sampleState 1
      ⟨none, .card_updated (.num 1)
        { id := .num 8, title := "Poster A2", extra := [("due", "Friday")] }⟩).1.boardData.columns
      = [] ++ { id := .num 1, title := "Orders", wipLimit := none,
                cards := [card7] ++
                  { id := .num 8, title := "Poster A2", extra := [("due", "Friday")] } :: [],
                collapsed := false } ::
          [ { id := .num 2, title := "Print", wipLimit := some 1, cards := [card9],
              collapsed := false },
            { id := .num 3, title := "Store", wipLimit := none, cards := [],
              collapsed := true } ] :=
  (card_updated_position sampleState 1 none (.num 1)
    { id := .num 8, title := "Poster A2", extra := [("due", "Friday")] }
    [] _ { id := .num 1, title := "Orders", wipLimit := none, cards := [card7, card8],
           collapsed := false }
    [card7] [] card8 rfl (by decide) rfl rfl (by decide) rfl).1

/-- C7. `card_deleted` removes exactly the matching cards: when the board is
`pre ++ K :: post` with `K` the column the message names, the board afterwards
is `pre ++ K2 :: post` where the cards of `K2` are those of `K` whose id
differs from `cardId`, a subsequence of the old one (relative order kept);
when card ids are unique and `K` holds `cardId`, the column and the board both
lose exactly one card. -/
theorem card_deleted_exact (st : State) (ws : Nat) (userId : Option Ident)
    (columnId cardId : Ident) (pre post : List Column) (K : Column)
    (hcols : st.boardData.columns = pre ++ K :: post)
    (hpre : ∀ col ∈ pre, col.id ≠ columnId) (hK : K.id = columnId) :
    (handleMessage st ws ⟨userId, .card_deleted columnId cardId⟩).1.boardData.columns
      = pre ++ { K with cards := K.cards.filter (fun c => decide (c.id ≠ cardId)) } :: post ∧
    List.Sublist (K.cards.filter (fun c => decide (c.id ≠ cardId))) K.cards ∧
    (uniqueCardIds st.boardData → (∃ c ∈ K.cards, c.id = cardId) →
      (K.cards.filter (fun c => decide (c.id ≠ cardId))).length + 1 = K.cards.length ∧
      totalCards (handleMessage st ws
        ⟨userId, .card_deleted columnId cardId⟩).1.boardData + 1 = totalCards st.boardData) := by
  obtain ⟨hfind, hmod⟩ := find?_isColumn_split columnId pre post K hpre hK
  have hrem : removeCard cardId K
      = { K with cards := K.cards.filter (fun c => decide (c.id ≠ cardId)) } := by
    simp only [removeCard]
    congr 1
    apply List.filter_congr
    intro c _
    by_cases h : c.id = cardId <;> simp [h]
  have hboard : (handleMessage st ws
      ⟨userId, .card_deleted columnId cardId⟩).1.boardData.columns
      = pre ++ { K with cards := K.cards.filter (fun c => decide (c.id ≠ cardId)) } :: post := by
    simp only [handleMessage, hcols, hfind, hmod, hrem]
  refine ⟨hboard, List.filter_sublist _, ?_⟩
  intro huniq ⟨c, hc, hcid⟩
  have hKmem : K ∈ st.boardData.columns := by rw [hcols]; simp
  have hocc := occurrences_eq_one st.boardData cardId huniq K hKmem c hc hcid
  have hle : K.cards.countP (hasId cardId)
      ≤ (st.boardData.columns.map (fun col => col.cards.countP (hasId cardId))).sum :=
    le_sum_map_of_mem (fun col => col.cards.countP (hasId cardId)) _ K hKmem
  have hpos : 1 ≤ K.cards.countP (hasId cardId) :=
    List.countP_pos_iff.mpr ⟨c, hc, by simp [hasId, hcid]⟩
  have hocc2 : (st.boardData.columns.map
      (fun col => col.cards.countP (hasId cardId))).sum = 1 := hocc
  have hlen := length_removeCard cardId K
  rw [hrem] at hlen
  simp only [] at hlen
  constructor
  · omega
  · unfold totalCards
    rw [hboard, hcols]
    simp only [List.map_append, List.map_cons, List.sum_append, List.sum_cons]
    omega

/-- Witness of C7: card 7 is deleted from column 1 of the sample board. -/
theorem card_deleted_exact_witness :
    (handleMessage sampleState 1
      ⟨none, .card_deleted (.num 1) (.num 7)⟩).1.boardData.columns
      = [] ++ { id := .num 1, title := "Orders", wipLimit := none,
                cards := [card7, card8].filter (fun c => decide (c.id ≠ .num 7)),
                collapsed := false } ::
          [ { id := .num 2, title := "Print", wipLimit := some 1, cards := [card9],
              collapsed := false },
            { id := .num 3, title := "Store", wipLimit := none, cards := [],
              collapsed := true } ] ∧
    totalCards (handleMessage sampleState 1
      ⟨none, .card_deleted (.num 1) (.num 7)⟩).1.boardData + 1
      = totalCards sampleState.boardData :=
  have h := card_deleted_exact sampleState 1 none (.num 1) (.num 7) []
    _ { id := .num 1, title := "Orders", wipLimit := none, cards := [card7, card8],
        collapsed := false } rfl (by decide) rfl
  ⟨h.1, (h.2.2 (by decide) (by decide)).2⟩

/-! ## Silent and ignored messages -/

theorem removeCard_of_absent (cardId : Ident) (K : Column)
    (h : ∀ c ∈ K.cards, c.id ≠ cardId) : removeCard cardId K = K := by
  simp only [removeCard]
  have : K.cards.filter (fun c => c.id != cardId) = K.cards := by
    rw [List.filter_eq_self]
    intro c hc
    simpa using h c hc
  rw [this]

/-- C8, as stated, fails: deleting the unknown card 99 from the existing
column 1 persists the board and broadcasts `card_deleted`. -/
theorem card_deleted_unknown_not_silent :
    (∃ col ∈ sampleState.boardData.columns,
      col.id = .num 1 ∧ ∀ c ∈ col.cards, c.id ≠ .num 99) ∧
    (handleMessage sampleState 1 ⟨none, .card_deleted (.num 1) (.num 99)⟩).2
      = [ .persist sampleBoard,
          .broadcast (.card_deleted none (.num 99) (.num 1)) ] := by
  decide

/-- C8, amended. Deleting a card id that matches no card of the named, existing
column leaves the state unchanged and writes no audit-log entry; the handler
persists the unchanged board once and then broadcasts one `card_deleted`
event repeating the message, and does nothing else. -/
theorem card_deleted_unknown_effects (st : State) (ws : Nat) (userId : Option Ident)
    (columnId cardId : Ident) (K : Column)
    (hK : st.boardData.columns.find? (isColumn columnId) = some K)
    (hnone : ∀ c ∈ K.cards, c.id ≠ cardId) :
    (handleMessage st ws ⟨userId, .card_deleted columnId cardId⟩).1 = st ∧
    (handleMessage st ws ⟨userId, .card_deleted columnId cardId⟩).2
      = [ .persist st.boardData,
          .broadcast (.card_deleted userId cardId columnId) ] := by
  have hfix : modifyFirst (isColumn columnId) (removeCard cardId) st.boardData.columns
      = st.boardData.columns := by
    obtain ⟨hp, pre, post, hsplit, hpre⟩ := find?_split _ _ _ hK
    rw [hsplit, modifyFirst_split _ _ pre post K hpre hp, removeCard_of_absent cardId K hnone]
  have hcard : K.cards.find? (hasId cardId) = none := by
    rw [List.find?_eq_none]
    intro c hc
    simpa [hasId] using hnone c hc
  constructor
  · simp only [handleMessage, hK, hfix]
  · simp only [handleMessage, hK, hfix, hcard, List.append_nil]

/-- Witness of C8 amended: card 99 is deleted from column 1 of the sample board. -/
theorem card_deleted_unknown_effects_witness :
    (handleMessage sampleState 1 ⟨none, .card_deleted (.num 1) (.num 99)⟩).1 = sampleState ∧
    (handleMessage sampleState 1 ⟨none, .card_deleted (.num 1) (.num 99)⟩).2
      = [ .persist sampleState.boardData,
          .broadcast (.card_deleted none (.num 99) (.num 1)) ] :=
  card_deleted_unknown_effects sampleState 1 none (.num 1) (.num 99)
    { id := .num 1, title := "Orders", wipLimit := none, cards := [card7, card8],
      collapsed := false } rfl (by decide)

/-- C9. Ignored messages change nothing and emit nothing: a `card_created`,
`card_updated`, `card_deleted` or `card_reordered` whose `columnId` is the id
of no column, a `card_updated` whose named column holds no card with the id
of the supplied card, and a message of a type that matches no case, all leave
the state (board, sessions, alert) as it is and produce no effect at all. -/
theorem ignored_message (st : State) (ws : Nat) (data : Msg)
    (h : (∃ columnId, (∀ col ∈ st.boardData.columns, col.id ≠ columnId) ∧
          ((∃ card, data.body = .card_created columnId card) ∨
           (∃ card, data.body = .card_updated columnId card) ∨
           (∃ cardId, data.body = .card_deleted columnId cardId) ∨
           (∃ cards, data.body = .card_reordered columnId cards))) ∨
         (∃ columnId card K, data.body = .card_updated columnId card ∧
           st.boardData.columns.find? (isColumn columnId) = some K ∧
           ∀ c ∈ K.cards, c.id ≠ card.id) ∨
         (∃ type, data.body = .other type)) :
    handleMessage st ws data = (st, []) := by
  rcases h with ⟨columnId, hno, hbody⟩ | ⟨columnId, card, K, hbody, hK, hnone⟩ | ⟨type, hbody⟩
  · have hfind : st.boardData.columns.find? (isColumn columnId) = none := by
      rw [List.find?_eq_none]
      intro col hcol
      simpa [isColumn] using hno col hcol
    rcases hbody with ⟨card, hb⟩ | ⟨card, hb⟩ | ⟨cardId, hb⟩ | ⟨cards, hb⟩ <;>
      simp [handleMessage, hb, hfind]
  · have hany : K.cards.any (hasId card.id) = false := by
      rw [List.any_eq_false]
      intro c hc
      simpa [hasId] using hnone c hc
    simp [handleMessage, hbody, hK, hany]
  · simp [handleMessage, hbody]

/-- Witness of C9: a `card_created` for the unknown column 99. -/
theorem ignored_message_witness :
    handleMessage sampleState 1 ⟨some (.str "u1"), .card_created (.num 99) card9⟩
      = (sampleState, []) :=
  ignored_message sampleState 1 ⟨some (.str "u1"), .card_created (.num 99) card9⟩
    (Or.inl ⟨.num 99, by decide, Or.inl ⟨card9, rfl⟩⟩)

/-! ## Reset -/

/-- C10. Reset idempotence and template shape: `reset_board` installs the same
board whatever the state, connection and sender, also when it is handled a
second time; that board has 21 columns with ids 1 to 21 in order, every column
without cards and not collapsed, `wipLimit` absent exactly for column 1
("Заказы") and column 21 ("Склад") and a positive number for the others. -/
theorem reset_board_template (st st2 : State) (ws ws2 : Nat) (userId userId2 : Option Ident) :
    (handleMessage st ws ⟨userId, .reset_board⟩).1.boardData
      = (handleMessage st2 ws2 ⟨userId2, .reset_board⟩).1.boardData ∧
    (handleMessage (handleMessage st ws ⟨userId, .reset_board⟩).1 ws2
        ⟨userId2, .reset_board⟩).1.boardData
      = (handleMessage st ws ⟨userId, .reset_board⟩).1.boardData ∧
    (handleMessage st ws ⟨userId, .reset_board⟩).1.boardData = defaultBoard ∧
    defaultBoard.columns.length = 21 ∧
    defaultBoard.columns.map (fun col => col.id)
      = (List.range 21).map (fun n => Ident.num (n + 1)) ∧
    (∀ col ∈ defaultBoard.columns, col.cards = [] ∧ col.collapsed = false) ∧
    (defaultBoard.columns.filter (fun col => col.wipLimit.isNone)).map
        (fun col => (col.id, col.title))
      = [(Ident.num 1, "Заказы"), (Ident.num 21, "Склад")] ∧
    (∀ col ∈ defaultBoard.columns, col.id ≠ .num 1 → col.id ≠ .num 21 →
      ∃ n, col.wipLimit = some n ∧ 0 < n) := by
  refine ⟨rfl, rfl, rfl, ?_, ?_, ?_, ?_, ?_⟩ <;> decide

/-! ## Effects of the mutation handlers -/

theorem mem_pre_of_head_ne {α : Type} (x y : α) (rest pre post : List α)
    (h : x :: rest = pre ++ y :: post) (hne : x ≠ y) : x ∈ pre := by
  cases pre with
  | nil =>
    simp only [List.nil_append, List.cons.injEq] at h
    exact absurd h.1 hne
  | cons z zs =>
    simp only [List.cons_append, List.cons.injEq] at h
    rw [h.1]
    exact List.mem_cons_self z zs

/-- Shape of the effects of a board mutation: the message is ignored, or the
effects are the persist of the new board, one broadcast and log entries. -/
theorem boardMutation_effects (st : State) (ws : Nat) (data : Msg)
    (hm : isBoardMutation data.body = true) :
    handleMessage st ws data = (st, []) ∨
    ∃ event logged, (handleMessage st ws data).2
        = .persist (handleMessage st ws data).1.boardData :: .broadcast event :: logged ∧
      ∀ e ∈ logged, ∃ action userName details, e = .log action userName details := by
  obtain ⟨userId, body⟩ := data
  cases body with
  | card_moved cardId fromColumnId toColumnId =>
    right
    simp only [handleMessage]
    refine ⟨_, _, rfl, ?_⟩
    intro e he
    split at he
    · simp at he
      exact ⟨_, _, _, he⟩
    · simp at he
  | card_created columnId card =>
    cases hf : st.boardData.columns.find? (isColumn columnId) with
    | none => left; simp [handleMessage, hf]
    | some column =>
      right
      simp only [handleMessage, hf]
      refine ⟨_, _, rfl, ?_⟩
      intro e he
      simp only [List.mem_singleton] at he
      exact ⟨_, _, _, he⟩
  | card_updated columnId card =>
    cases hf : st.boardData.columns.find? (isColumn columnId) with
    | none => left; simp [handleMessage, hf]
    | some column =>
      by_cases hany : column.cards.any (hasId card.id) = true
      · right
        simp only [handleMessage, hf, hany, if_true]
        refine ⟨_, _, rfl, ?_⟩
        intro e he
        simp only [List.mem_singleton] at he
        exact ⟨_, _, _, he⟩
      · left; simp [handleMessage, hf, hany]
  | card_deleted columnId cardId =>
    cases hf : st.boardData.columns.find? (isColumn columnId) with
    | none => left; simp [handleMessage, hf]
    | some column =>
      right
      simp only [handleMessage, hf]
      refine ⟨_, _, rfl, ?_⟩
      intro e he
      split at he
      · simp at he
        exact ⟨_, _, _, he⟩
      · simp at he
  | card_reordered columnId cards =>
    cases hf : st.boardData.columns.find? (isColumn columnId) with
    | none => left; simp [handleMessage, hf]
    | some column =>
      right
      simp only [handleMessage, hf]
      refine ⟨_, _, rfl, ?_⟩
      intro e he
      simp only [List.mem_singleton] at he
      exact ⟨_, _, _, he⟩
  | reset_board =>
    right
    simp only [handleMessage]
    refine ⟨_, _, rfl, ?_⟩
    intro e he
    simp only [List.mem_singleton] at he
    exact ⟨_, _, _, he⟩
  | user_joined user => simp [isBoardMutation] at hm
  | get_board => simp [isBoardMutation] at hm
  | alert_created alertText => simp [isBoardMutation] at hm
  | alert_cleared => simp [isBoardMutation] at hm
  | other type => simp [isBoardMutation] at hm

/-- C11. Broadcast never outruns durable state: when a board mutation
(`card_moved`, `card_created`, `card_updated`, `card_deleted`, `card_reordered`,
`reset_board`) is applied, that is the board changes or the handler has any
effect, the first effect is the persist of the board after the mutation, and
in every split of the effect sequence at a broadcast that persist lies in
the part before the broadcast. -/
theorem persist_before_broadcast (st : State) (ws : Nat) (data : Msg)
    (hm : isBoardMutation data.body = true)
    (happ : (handleMessage st ws data).1.boardData ≠ st.boardData ∨
      (handleMessage st ws data).2 ≠ []) :
    (∃ rest, (handleMessage st ws data).2
      = .persist (handleMessage st ws data).1.boardData :: rest) ∧
    (∀ pre event post, (handleMessage st ws data).2 = pre ++ .broadcast event :: post →
      Effect.persist (handleMessage st ws data).1.boardData ∈ pre) := by
  rcases boardMutation_effects st ws data hm with h | ⟨event, logged, h, _⟩
  · exfalso
    rcases happ with h1 | h1
    · exact h1 (by rw [h])
    · exact h1 (by rw [h])
  · refine ⟨⟨_, h⟩, ?_⟩
    intro pre ev post hsplit
    rw [h] at hsplit
    exact mem_pre_of_head_ne _ _ _ pre post hsplit (by simp)

/-- Witness of C11: card 7 is moved from column 1 to column 2; the persist of
the new board is the first effect. -/
theorem persist_before_broadcast_witness :
    ∃ rest, (handleMessage sampleState 1 ⟨none, .card_moved (.num 7) (.num 1) (.num 2)⟩).2
      = .persist (handleMessage sampleState 1
          ⟨none, .card_moved (.num 7) (.num 1) (.num 2)⟩).1.boardData :: rest :=
  (persist_before_broadcast sampleState 1 ⟨none, .card_moved (.num 7) (.num 1) (.num 2)⟩
    rfl (Or.inl (by decide))).1

/-! ## Alert replay -/

theorem run_append (st : State) (xs ys : List Input) :
    run st (xs ++ ys) = run (run st xs) ys := by
  induction xs generalizing st with
  | nil => rfl
  | cons x xs ih => simp [run, ih]

theorem onClose_currentAlert (st : State) (ws : Nat) :
    (onClose st ws).1.currentAlert = st.currentAlert := by
  unfold onClose
  split <;> rfl

theorem onClose_boardData (st : State) (ws : Nat) :
    (onClose st ws).1.boardData = st.boardData := by
  unfold onClose
  split <;> rfl

theorem step_currentAlert (st : State) (i : Input) (h : isAlertInput i = false) :
    (step st i).1.currentAlert = st.currentAlert := by
  cases i with
  | connection ws => rfl
  | malformed ws error => rfl
  | close ws => exact onClose_currentAlert st ws
  | message ws data =>
    obtain ⟨userId, body⟩ := data
    cases body with
    | alert_created t => simp [isAlertInput] at h
    | alert_cleared => simp [isAlertInput] at h
    | user_joined user => rfl
    | get_board => rfl
    | card_moved cardId fromColumnId toColumnId => rfl
    | card_created columnId card =>
      simp only [step, handleMessage]
      split <;> rfl
    | card_updated columnId card =>
      simp only [step, handleMessage]
      split
      · split <;> rfl
      · rfl
    | card_deleted columnId cardId =>
      simp only [step, handleMessage]
      split <;> rfl
    | card_reordered columnId cards =>
      simp only [step, handleMessage]
      split <;> rfl
    | reset_board => rfl
    | other type => rfl

theorem run_currentAlert (st : State) (ins : List Input)
    (h : ∀ i ∈ ins, isAlertInput i = false) :
    (run st ins).currentAlert = st.currentAlert := by
  induction ins generalizing st with
  | nil => rfl
  | cons i rest ih =>
    simp only [run]
    rw [ih (step st i).1 (fun j hj => h j (List.mem_cons_of_mem i hj)),
      step_currentAlert st i (h i (List.mem_cons_self i rest))]

/-- C12, as stated, fails for the empty alert text: after `alert_created` with
`alertText = ""` the alert variable holds that text, and a connection opened
afterwards is sent nothing. -/
theorem alert_replay_empty_text :
    (run (initialState .absent) [.message 1 ⟨none, .alert_created ""⟩]).currentAlert
      = some "" ∧
    (step (run (initialState .absent) [.message 1 ⟨none, .alert_created ""⟩])
      (.connection 2)).2 = [] := by
  decide

/-- C12, amended. New-client alert replay for a non-empty text: when the most
recent alert message handled is `alert_created` with a non-empty text `t`, a
connection that opens is sent exactly one event, `alert_created` with text `t`,
by the connection callback; when the most recent alert message is
`alert_cleared`, or no alert message was handled since start-up, it is sent
nothing. -/
theorem alert_replay (st : State) (before later : List Input) (ws0 : Nat)
    (userId : Option Ident) (t : String) (ws : Nat)
    (hlater : ∀ i ∈ later, isAlertInput i = false) :
    (t ≠ "" →
      (step (run st (before ++ .message ws0 ⟨userId, .alert_created t⟩ :: later))
        (.connection ws)).2 = [ .send ws (.alert_created t) ]) ∧
    (step (run st (before ++ .message ws0 ⟨userId, .alert_cleared⟩ :: later))
      (.connection ws)).2 = [] ∧
    (∀ file, (step (run (initialState file) later) (.connection ws)).2 = []) := by
  refine ⟨?_, ?_, ?_⟩
  · intro ht
    have hcur : (run st (before ++ .message ws0 ⟨userId, .alert_created t⟩ :: later)).currentAlert
        = some t := by
      rw [run_append]
      simp only [run]
      rw [run_currentAlert _ later hlater]
      rfl
    simp [step, onConnection, hcur, ht]
  · have hcur : (run st (before ++ .message ws0 ⟨userId, .alert_cleared⟩ :: later)).currentAlert
        = none := by
      rw [run_append]
      simp only [run]
      rw [run_currentAlert _ later hlater]
      rfl
    simp [step, onConnection, hcur]
  · intro file
    have hcur : (run (initialState file) later).currentAlert = none := by
      rw [run_currentAlert _ later hlater]
      rfl
    simp [step, onConnection, hcur]

/-- Witness of C12 amended: the alert "Stop" is raised, a board is fetched, and
connection 5 opens. -/
theorem alert_replay_witness :
    (step (run sampleState
        ([.connection 1] ++ .message 1 ⟨none, .alert_created "Stop"⟩ ::
          [.message 2 ⟨none, .get_board⟩]))
      (.connection 5)).2 = [ .send 5 (.alert_created "Stop") ] :=
  (alert_replay sampleState [.connection 1] [.message 2 ⟨none, .get_board⟩] 1 none "Stop" 5
    (by decide)).1 (by decide)

/-! ## Delivery of broadcasts -/

theorem deliveries_logs (clients : List Client) (logged : List Effect)
    (h : ∀ e ∈ logged, ∃ action userName details, e = .log action userName details) :
    deliveries clients logged = [] := by
  induction logged with
  | nil => rfl
  | cons e rest ih =>
    obtain ⟨action, userName, details, he⟩ := h e (List.mem_cons_self e rest)
    subst he
    simp only [deliveries]
    exact ih (fun e2 he2 => h e2 (List.mem_cons_of_mem _ he2))

theorem deliveries_mutation (clients : List Client) (st : State) (ws : Nat) (data : Msg)
    (hm : isMutation data.body = true) (happ : (handleMessage st ws data).2 ≠ []) :
    ∃ event, deliveries clients (handleMessage st ws data).2 = broadcast clients event := by
  by_cases hb : isBoardMutation data.body = true
  · rcases boardMutation_effects st ws data hb with h | ⟨event, logged, h, hlog⟩
    · exact absurd (by rw [h]) happ
    · refine ⟨event, ?_⟩
      rw [h]
      simp only [deliveries, deliveries_logs clients logged hlog, List.append_nil]
  · obtain ⟨userId, body⟩ := data
    cases body with
    | alert_created t => exact ⟨.alert_created t, by simp [handleMessage, deliveries]⟩
    | alert_cleared => exact ⟨.alert_cleared, by simp [handleMessage, deliveries]⟩
    | user_joined user => simp [isMutation, isBoardMutation] at hm
    | get_board => simp [isMutation, isBoardMutation] at hm
    | other type => simp [isMutation, isBoardMutation] at hm
    | card_moved cardId fromColumnId toColumnId => simp [isBoardMutation] at hb
    | card_created columnId card => simp [isBoardMutation] at hb
    | card_updated columnId card => simp [isBoardMutation] at hb
    | card_deleted columnId cardId => simp [isBoardMutation] at hb
    | card_reordered columnId cards => simp [isBoardMutation] at hb
    | reset_board => simp [isBoardMutation] at hb

theorem filter_broadcast_of_absent (clients : List Client) (event : Event) (w : Nat)
    (h : ∀ client ∈ clients, client.ws ≠ w) :
    (broadcast clients event).filter (fun d => d.1 == w) = [] := by
  rw [List.filter_eq_nil_iff]
  intro d hd
  simp only [broadcast, List.mem_map, List.mem_filter] at hd
  obtain ⟨client, ⟨hc, _⟩, rfl⟩ := hd
  simpa using h client hc

theorem filter_broadcast (clients : List Client) (event : Event)
    (hset : (clients.map (fun client => client.ws)).Nodup)
    (c0 : Client) (hc0 : c0 ∈ clients) :
    (broadcast clients event).filter (fun d => d.1 == c0.ws)
      = if c0.readyState = .OPEN then [(c0.ws, event)] else [] := by
  induction clients with
  | nil => cases hc0
  | cons c cs ih =>
    simp only [List.map_cons, List.nodup_cons] at hset
    obtain ⟨hnot, hcs⟩ := hset
    have hsplit : broadcast (c :: cs) event
        = (if c.readyState = .OPEN then [(c.ws, event)] else []) ++ broadcast cs event := by
      by_cases ho : c.readyState = .OPEN <;> simp [broadcast, List.filter_cons, ho]
    rw [hsplit, List.filter_append]
    rcases List.mem_cons.mp hc0 with rfl | hmem
    · have hrest : ∀ client ∈ cs, client.ws ≠ c0.ws := by
        intro client hcl heq
        exact hnot (List.mem_map.mpr ⟨client, hcl, heq⟩)
      rw [filter_broadcast_of_absent cs event c0.ws hrest]
      by_cases ho : c0.readyState = .OPEN <;> simp [ho]
    · have hne : c.ws ≠ c0.ws := by
        intro heq
        exact hnot (List.mem_map.mpr ⟨c0, hmem, heq.symm⟩)
      rw [ih hcs hmem]
      by_cases ho : c.readyState = .OPEN <;> simp [ho, hne]

/-- C13. Broadcast completeness: for clients with distinct connections and an
accepted mutation (a message of type `card_moved`, `card_created`,
`card_updated`, `card_deleted`, `card_reordered`, `reset_board`,
`alert_created` or `alert_cleared` that changes the state or has any effect),
there is one event such that every client in the open state, whichever
connection sent the message, is delivered exactly that event once, and every
client not in the open state is delivered nothing. -/
theorem broadcast_complete (clients : List Client)
    (hset : (clients.map (fun client => client.ws)).Nodup)
    (st : State) (ws : Nat) (data : Msg) (hm : isMutation data.body = true)
    (happ : (handleMessage st ws data).1 ≠ st ∨ (handleMessage st ws data).2 ≠ []) :
    ∃ event,
      (∀ client ∈ clients, client.readyState = .OPEN →
        (deliveries clients (handleMessage st ws data).2).filter
          (fun d => d.1 == client.ws) = [(client.ws, event)]) ∧
      (∀ client ∈ clients, client.readyState ≠ .OPEN →
        (deliveries clients (handleMessage st ws data).2).filter
          (fun d => d.1 == client.ws) = []) := by
  have heff : (handleMessage st ws data).2 ≠ [] := by
    rcases happ with h | h
    · intro hnil
      apply h
      by_cases hb : isBoardMutation data.body = true
      · rcases boardMutation_effects st ws data hb with h1 | ⟨event, logged, h1, _⟩
        · rw [h1]
        · rw [h1] at hnil; cases hnil
      · obtain ⟨userId, body⟩ := data
        cases body <;> simp [isMutation, isBoardMutation] at hm hb <;>
          simp [handleMessage] at hnil
    · exact h
  obtain ⟨event, hev⟩ := deliveries_mutation clients st ws data hm heff
  refine ⟨event, ?_, ?_⟩
  · intro client hc ho
    rw [hev, filter_broadcast clients event hset client hc, if_pos ho]
  · intro client hc ho
    rw [hev, filter_broadcast clients event hset client hc, if_neg ho]

/-- Witness of C13: connection 1 moves card 7; the open clients 1 and 2 each
get the `card_moved` event once, the closing client 3 gets nothing. -/
theorem broadcast_complete_witness :
    ∃ event,
      (∀ client ∈ sampleClients, client.readyState = .OPEN →
        (deliveries sampleClients (handleMessage sampleState 1
            ⟨none, .card_moved (.num 7) (.num 1) (.num 2)⟩).2).filter
          (fun d => d.1 == client.ws) = [(client.ws, event)]) ∧
      (∀ client ∈ sampleClients, client.readyState ≠ .OPEN →
        (deliveries sampleClients (handleMessage sampleState 1
            ⟨none, .card_moved (.num 7) (.num 1) (.num 2)⟩).2).filter
          (fun d => d.1 == client.ws) = []) :=
  broadcast_complete sampleClients (by decide) sampleState 1
    ⟨none, .card_moved (.num 7) (.num 1) (.num 2)⟩ rfl (Or.inl (by decide))

/-! ## Preservation of unique card ids -/

theorem uniqueCardIds_iff_occurrences (b : Board) :
    uniqueCardIds b ↔ ∀ x, occurrences b x ≤ 1 := by
  unfold uniqueCardIds
  rw [List.nodup_iff_count_le_one]
  constructor
  · intro h x
    rw [occurrences_eq_count]
    exact h x
  · intro h x
    rw [← occurrences_eq_count]
    exact h x

theorem occurrences_modifyFirst (p : Column → Bool) (f : Column → Column) (b : Board)
    (K : Column) (hK : b.columns.find? p = some K) (x : Ident) :
    occurrences { columns := modifyFirst p f b.columns } x + K.cards.countP (hasId x)
      = occurrences b x + (f K).cards.countP (hasId x) :=
  sum_map_modifyFirst p f (fun col => col.cards.countP (hasId x)) b.columns K hK

theorem modifyFirst_of_find?_none {α : Type} (p : α → Bool) (f : α → α) (l : List α)
    (h : l.find? p = none) : modifyFirst p f l = l := by
  apply modifyFirst_of_forall_not
  intro x hx
  rw [List.find?_eq_none] at h
  simpa using h x hx

theorem uniqueCardIds_modifyFirst_le (p : Column → Bool) (f : Column → Column) (b : Board)
    (hle : ∀ K, b.columns.find? p = some K →
      ∀ x, (f K).cards.countP (hasId x) ≤ K.cards.countP (hasId x))
    (h : uniqueCardIds b) : uniqueCardIds { columns := modifyFirst p f b.columns } := by
  cases hK : b.columns.find? p with
  | none =>
    rw [modifyFirst_of_find?_none p f b.columns hK]
    exact h
  | some K =>
    rw [uniqueCardIds_iff_occurrences] at h ⊢
    intro x
    have h1 := occurrences_modifyFirst p f b K hK x
    have h2 := hle K hK x
    have h3 := h x
    omega

theorem uniqueCardIds_push (p : Column → Bool) (card : Card) (b : Board)
    (h0 : occurrences b card.id = 0) (h : uniqueCardIds b) :
    uniqueCardIds { columns := modifyFirst p (pushCard card) b.columns } := by
  cases hK : b.columns.find? p with
  | none =>
    rw [modifyFirst_of_find?_none p _ b.columns hK]
    exact h
  | some K =>
    rw [uniqueCardIds_iff_occurrences] at h ⊢
    intro x
    have h1 := occurrences_modifyFirst p (pushCard card) b K hK x
    have h3 := h x
    by_cases hx : card.id = x
    · subst hx
      have hp : (pushCard card K).cards.countP (hasId card.id)
          = K.cards.countP (hasId card.id) + 1 := by
        simp [pushCard, List.countP_append, hasId]
      omega
    · have hp : (pushCard card K).cards.countP (hasId x) = K.cards.countP (hasId x) := by
        simp [pushCard, List.countP_append, hasId, hx]
      omega

theorem countP_removeCard_le (cardId x : Ident) (K : Column) :
    (removeCard cardId K).cards.countP (hasId x) ≤ K.cards.countP (hasId x) :=
  List.Sublist.countP_le _ (List.filter_sublist _)

theorem countP_replaceCard (card : Card) (x : Ident) (K : Column) :
    (replaceCard card K).cards.countP (hasId x) = K.cards.countP (hasId x) := by
  simp only [replaceCard]
  induction K.cards with
  | nil => rfl
  | cons c cs ih =>
    by_cases hc : hasId card.id c = true
    · have hcid : c.id = card.id := by simpa [hasId] using hc
      have hsame : hasId x card = hasId x c := by simp [hasId, hcid]
      simp only [modifyFirst, hc, if_true, List.countP_cons, hsame]
    · have hc2 : hasId card.id c = false := by simpa using hc
      simp only [modifyFirst, hc2, Bool.false_eq_true, if_false, List.countP_cons, ih]

theorem uniqueCardIds_applyCardMove (b : Board) (cardId fromColumnId toColumnId : Ident)
    (h : uniqueCardIds b) : uniqueCardIds (applyCardMove b cardId fromColumnId toColumnId) := by
  cases hsrc : findSource cardId b.columns with
  | none => simp only [applyCardMove, hsrc]; exact h
  | some sc =>
    obtain ⟨s, c⟩ := sc
    by_cases hne : s.id = toColumnId
    · simp only [applyCardMove, hsrc, hne, ne_eq, not_true_eq_false, if_false]
      exact h
    · rw [applyCardMove_moved b cardId fromColumnId toColumnId s c hsrc hne]
      obtain ⟨hfs, hfc⟩ := findSource_eq_some cardId _ s c hsrc
      have hcid : c.id = cardId := by simpa [hasId] using List.find?_some hfc
      have hcmem : c ∈ s.cards := List.mem_of_find?_eq_some hfc
      have h1 : uniqueCardIds
          { columns := modifyFirst (holdsCard cardId) (removeCard cardId) b.columns } :=
        uniqueCardIds_modifyFirst_le _ _ b
          (fun K _ x => countP_removeCard_le cardId x K) h
      have h0 : occurrences
          { columns := modifyFirst (holdsCard cardId) (removeCard cardId) b.columns } c.id
          = 0 := by
        rw [hcid]
        have hocc := occurrences_modifyFirst (holdsCard cardId) (removeCard cardId) b s hfs
          cardId
        rw [countP_hasId_removeCard] at hocc
        have hpos : 1 ≤ s.cards.countP (hasId cardId) :=
          List.countP_pos_iff.mpr ⟨c, hcmem, by simp [hasId, hcid]⟩
        have hle := (uniqueCardIds_iff_occurrences b).mp h cardId
        omega
      exact uniqueCardIds_push (isColumn toColumnId) c
        { columns := modifyFirst (holdsCard cardId) (removeCard cardId) b.columns } h0 h1

theorem occurrences_eq_zero_of_fresh (b : Board) (x : Ident)
    (h : ∀ c ∈ allCards b, c.id ≠ x) : occurrences b x = 0 := by
  rw [occurrences_eq_countP, List.countP_eq_zero]
  intro c hc
  simpa [hasId] using h c hc

theorem uniqueCardIds_defaultBoard : uniqueCardIds defaultBoard := by decide

/-- Handling a message that satisfies `keepsIds` keeps card ids unique. -/
theorem uniqueCardIds_handleMessage (st : State) (ws : Nat) (data : Msg)
    (h : uniqueCardIds st.boardData) (hk : keepsIds st.boardData data.body) :
    uniqueCardIds (handleMessage st ws data).1.boardData := by
  obtain ⟨userId, body⟩ := data
  cases body with
  | user_joined user => exact h
  | get_board => exact h
  | alert_created t => exact h
  | alert_cleared => exact h
  | other type => exact h
  | reset_board => exact uniqueCardIds_defaultBoard
  | card_moved cardId fromColumnId toColumnId =>
    simp only [handleMessage]
    exact uniqueCardIds_applyCardMove st.boardData cardId fromColumnId toColumnId h
  | card_created columnId card =>
    simp only [handleMessage]
    split
    · exact uniqueCardIds_push (isColumn columnId) card st.boardData
        (occurrences_eq_zero_of_fresh st.boardData card.id hk) h
    · exact h
  | card_updated columnId card =>
    simp only [handleMessage]
    split
    · split
      · exact uniqueCardIds_modifyFirst_le _ _ st.boardData
          (fun K _ x => Nat.le_of_eq (countP_replaceCard card x K)) h
      · exact h
    · exact h
  | card_deleted columnId cardId =>
    simp only [handleMessage]
    split
    · exact uniqueCardIds_modifyFirst_le _ _ st.boardData
        (fun K _ x => countP_removeCard_le cardId x K) h
    · exact h
  | card_reordered columnId cards =>
    simp only [handleMessage]
    split
    · apply uniqueCardIds_modifyFirst_le _ _ st.boardData _ h
      intro K hK x
      have hperm := hk K hK
      have hcount := hperm.count_eq x
      rw [List.count_eq_countP, List.count_eq_countP, List.countP_map, List.countP_map]
        at hcount
      exact Nat.le_of_eq hcount
    · exact h

/-- C19. Move, update and delete preserve id uniqueness: on a board with
unique card ids, the board after handling any `card_moved`, `card_updated` or
`card_deleted` message, whatever its arguments, has unique card ids. -/
theorem move_update_delete_keep_unique (st : State) (ws : Nat) (data : Msg)
    (h : uniqueCardIds st.boardData)
    (hbody : (∃ cardId fromColumnId toColumnId,
        data.body = .card_moved cardId fromColumnId toColumnId) ∨
      (∃ columnId card, data.body = .card_updated columnId card) ∨
      (∃ columnId cardId, data.body = .card_deleted columnId cardId)) :
    uniqueCardIds (handleMessage st ws data).1.boardData := by
  apply uniqueCardIds_handleMessage st ws data h
  rcases hbody with ⟨_, _, _, hb⟩ | ⟨_, _, hb⟩ | ⟨_, _, hb⟩ <;> rw [hb] <;> trivial

/-- Witness of C19: card 7 is moved to the unknown column 99 on the sample
board. -/
theorem move_update_delete_keep_unique_witness :
    uniqueCardIds sampleState.boardData ∧
    uniqueCardIds (handleMessage sampleState 1
      ⟨none, .card_moved (.num 7) (.num 1) (.num 99)⟩).1.boardData :=
  ⟨by decide,
    move_update_delete_keep_unique sampleState 1
      ⟨none, .card_moved (.num 7) (.num 1) (.num 99)⟩ (by decide)
      (Or.inl ⟨_, _, _, rfl⟩)⟩

theorem step_boardData_of_not_message (st : State) (i : Input)
    (h : ∀ ws data, i ≠ .message ws data) : (step st i).1.boardData = st.boardData := by
  cases i with
  | connection ws => rfl
  | malformed ws error => rfl
  | close ws => exact onClose_boardData st ws
  | message ws data => exact absurd rfl (h ws data)

theorem uniqueCardIds_run (st : State) (ins : List Input)
    (h : uniqueCardIds st.boardData) (hadm : admissible st ins) :
    uniqueCardIds (run st ins).boardData := by
  induction ins generalizing st with
  | nil => exact h
  | cons i rest ih =>
    cases i with
    | message ws data =>
      simp only [admissible] at hadm
      exact ih _ (uniqueCardIds_handleMessage st ws data h hadm.1) hadm.2
    | connection ws =>
      simp only [admissible] at hadm
      apply ih _ _ hadm
      rw [step_boardData_of_not_message st _ (fun _ _ hc => by cases hc)]
      exact h
    | malformed ws error =>
      simp only [admissible] at hadm
      apply ih _ _ hadm
      rw [step_boardData_of_not_message st _ (fun _ _ hc => by cases hc)]
      exact h
    | close ws =>
      simp only [admissible] at hadm
      apply ih _ _ hadm
      rw [step_boardData_of_not_message st _ (fun _ _ hc => by cases hc)]
      exact h

/-- C14, as stated, fails: from the default board, two `card_created` messages
carrying the same card put two cards with id 7 on the board. -/
theorem unique_ids_broken_by_create :
    ¬ uniqueCardIds (run { boardData := defaultBoard, users := [], currentAlert := none }
      [ .message 1 ⟨none, .card_created (.num 1) card7⟩,
        .message 2 ⟨none, .card_created (.num 2) card7⟩ ]).boardData := by
  decide

/-- C14, amended. Starting from the default template board, after every finite
sequence of inputs in which each `card_created` carries a card id that is on
no column when it is handled and each `card_reordered` supplies the ids of the
named column in some order, no two cards on the board have the same id. -/
theorem unique_ids_invariant (st : State) (ins : List Input)
    (hstart : st.boardData = defaultBoard) (hadm : admissible st ins) :
    uniqueCardIds (run st ins).boardData := by
  apply uniqueCardIds_run st ins _ hadm
  rw [hstart]
  exact uniqueCardIds_defaultBoard

/-- Witness of C14 amended: cards 7 and 8 are created in columns 1 and 2, card
7 is moved to column 2, and column 2 is reordered. -/
theorem unique_ids_invariant_witness :
    uniqueCardIds (run { boardData := defaultBoard, users := [], currentAlert := none }
      [ .message 1 ⟨none, .card_created (.num 1) card7⟩,
        .connection 2,
        .message 2 ⟨none, .card_created (.num 2) card8⟩,
        .message 1 ⟨none, .card_moved (.num 7) (.num 1) (.num 2)⟩,
        .message 2 ⟨none, .card_reordered (.num 2) [card7, card8]⟩ ]).boardData :=
  unique_ids_invariant { boardData := defaultBoard, users := [], currentAlert := none } _ rfl
    (by
      refine ⟨?_, ?_⟩
      · show ∀ c ∈ allCards defaultBoard, c.id ≠ card7.id
        decide
      show admissible _ (.message 2 ⟨none, .card_created (.num 2) card8⟩ :: _)
      refine ⟨?_, trivial, ?_, trivial⟩
      · show ∀ c ∈ allCards _, c.id ≠ card8.id
        decide
      intro K hK
      have hcol : K.cards = [card8, card7] := by
        have : some K = some _ := hK.symm.trans (by rfl)
        cases this
        rfl
      rw [hcol]
      decide)

/-! ## Sessions -/

theorem onClose_users (st : State) (ws : Nat) :
    (onClose st ws).1.users = st.users.eraseP (fun e => e.2.ws == ws) := by
  unfold onClose
  split
  · rfl
  · rename_i hnone
    rw [List.find?_eq_none] at hnone
    exact (List.eraseP_of_forall_not hnone).symm

theorem not_of_mem_eraseP {α : Type} (p : α → Bool) (l : List α)
    (h : (l.filter p).length ≤ 1) : ∀ e ∈ l.eraseP p, p e = false := by
  induction l with
  | nil => intro e he; cases he
  | cons x xs ih =>
    by_cases hx : p x = true
    · rw [List.eraseP_cons_of_pos hx]
      rw [List.filter_cons_of_pos hx] at h
      have hnil : xs.filter p = [] := by
        apply List.eq_nil_of_length_eq_zero
        simp only [List.length_cons] at h
        omega
      rw [List.filter_eq_nil_iff] at hnil
      intro e he
      simpa using hnil e he
    · rw [List.eraseP_cons_of_neg hx]
      rw [List.filter_cons_of_neg hx] at h
      intro e he
      rcases List.mem_cons.mp he with rfl | hmem
      · simpa using hx
      · exact ih h e hmem

theorem filter_not_eraseP {α : Type} (p : α → Bool) (l : List α) :
    (l.eraseP p).filter (fun e => !p e) = l.filter (fun e => !p e) := by
  induction l with
  | nil => rfl
  | cons x xs ih =>
    by_cases hx : p x = true
    · rw [List.eraseP_cons_of_pos hx]
      simp [List.filter_cons, hx]
    · rw [List.eraseP_cons_of_neg hx]
      simp [List.filter_cons, hx, ih]

/-- Enumeration order of `users`: after joins under the ids 5, 3, "x", "10"
and "05" the properties are visited as "3", "5", "10", "x", "05", and a join
under an id that is already a key keeps the position of the key. -/
theorem users_enumeration_order :
    (run (initialState .absent)
      [ .message 7 ⟨none, .user_joined { id := .num 5, name := "Anna", color := "red" }⟩,
        .message 7 ⟨none, .user_joined { id := .num 3, name := "Boris", color := "blue" }⟩,
        .message 7 ⟨none, .user_joined { id := .str "x", name := "Vera", color := "blue" }⟩,
        .message 7 ⟨none, .user_joined { id := .str "10", name := "Gleb", color := "blue" }⟩,
        .message 7 ⟨none, .user_joined { id := .str "05", name := "Dina", color := "blue" }⟩,
        .message 9 ⟨none, .user_joined { id := .num 5, name := "Anna", color := "red" }⟩
      ]).users.map (fun e => (e.1, e.2.ws))
      = [("3", 7), ("5", 9), ("10", 7), ("x", 7), ("05", 7)] := by
  decide

/-- The close loop meets array-index keys first: after joins under the ids 5
and then 3 on connection 7, closing it removes and announces user "3". -/
theorem close_visits_array_indices_first :
    step (run (initialState .absent)
      [ .message 7 ⟨none, .user_joined { id := .num 5, name := "Anna", color := "red" }⟩,
        .message 7 ⟨none, .user_joined { id := .num 3, name := "Boris", color := "blue" }⟩ ])
      (.close 7)
      = ({ boardData := loadDefault,
           users :=
             [ ("5", { user := { id := .num 5, name := "Anna", color := "red" }, ws := 7 }) ],
           currentAlert := none },
         [ .log "DISCONNECT" "Boris" "Пользователь отключился",
           .broadcast (.user_left "3") ]) := by
  decide

/-- C15, as stated, fails: connection 7 joins as user "a" and then as user "b";
after it closes, the session of "b" is still registered with connection 7. -/
theorem close_leaves_second_session :
    (run (initialState .absent)
      [ .connection 7,
        .message 7 ⟨none, .user_joined { id := .str "a", name := "Anna", color := "red" }⟩,
        .message 7 ⟨none, .user_joined { id := .str "b", name := "Boris", color := "blue" }⟩,
        .close 7 ]).users
      = [ ("b", { user := { id := .str "b", name := "Boris", color := "blue" }, ws := 7 }) ] := by
  decide

/-- C15, amended. When at most one session is bound to connection `ws`, after
the close handler has run for `ws` the registry holds no session whose
connection is `ws`; in every case, also when several sessions are bound to
`ws`, the sessions bound to other connections are the same as before, in the
same order. -/
theorem close_removes_session (st : State) (ws : Nat) :
    ((st.users.filter (fun e => e.2.ws == ws)).length ≤ 1 →
      ∀ e ∈ (step st (.close ws)).1.users, e.2.ws ≠ ws) ∧
    (step st (.close ws)).1.users.filter (fun e => !(e.2.ws == ws))
      = st.users.filter (fun e => !(e.2.ws == ws)) := by
  simp only [step, onClose_users]
  constructor
  · intro hone e he
    have := not_of_mem_eraseP (fun e : String × Session => e.2.ws == ws) st.users hone e he
    simpa using this
  · exact filter_not_eraseP (fun e : String × Session => e.2.ws == ws) st.users

/-- Witness of C15 amended: "u1" is registered on connection 1 and "u2" on
connection 2; connection 1 closes, no session of connection 1 is left and
the session of "u2" is kept. -/
theorem close_removes_session_witness :
    (∀ e ∈ (step { sampleState with users :=
        [ ("u1", { user := { id := .str "u1", name := "Anna", color := "red" }, ws := 1 }),
          ("u2", { user := { id := .str "u2", name := "Boris", color := "blue" }, ws := 2 }) ] }
        (.close 1)).1.users, e.2.ws ≠ 1) ∧
    (step { sampleState with users :=
        [ ("u1", { user := { id := .str "u1", name := "Anna", color := "red" }, ws := 1 }),
          ("u2", { user := { id := .str "u2", name := "Boris", color := "blue" }, ws := 2 }) ] }
        (.close 1)).1.users.filter (fun e => !(e.2.ws == 1))
      = [ ("u2", { user := { id := .str "u2", name := "Boris", color := "blue" }, ws := 2 }) ] :=
  ⟨(close_removes_session { sampleState with users :=
        [ ("u1", { user := { id := .str "u1", name := "Anna", color := "red" }, ws := 1 }),
          ("u2", { user := { id := .str "u2", name := "Boris", color := "blue" }, ws := 2 }) ] }
      1).1 (by decide),
    (close_removes_session { sampleState with users :=
        [ ("u1", { user := { id := .str "u1", name := "Anna", color := "red" }, ws := 1 }),
          ("u2", { user := { id := .str "u2", name := "Boris", color := "blue" }, ws := 2 }) ] }
      1).2.trans (by decide)⟩

/-! ## The MOVE log entry -/

theorem eq_of_both_hold (b : Board) (h : uniqueCardIds b) (cardId : Ident) (x s : Column)
    (hx : x ∈ b.columns) (hs : s ∈ b.columns)
    (hxh : holdsCard cardId x = true) (hsh : holdsCard cardId s = true) : x = s := by
  obtain ⟨k, hk⟩ := List.mem_iff_getElem?.mp hx
  obtain ⟨i, hi⟩ := List.mem_iff_getElem?.mp hs
  have hki := unique_holder b.columns h cardId k i x s hk hi hxh hsh
  subst hki
  rw [hk] at hi
  exact Option.some.inj hi

/-- C16, as stated, fails: a move of card 7 from column 1 to column 1 is logged
and leaves the board unchanged; so does, on a board that has the id 7 in
columns 1 and 2, a move of card 7 from column 2 to column 1. -/
theorem move_logged_without_change :
    (Effect.log "MOVE" "unknown" "Переместил карточку \"Flyer\" из \"Orders\" в \"Orders\""
        ∈ (handleMessage sampleState 1 ⟨none, .card_moved (.num 7) (.num 1) (.num 1)⟩).2 ∧
      (handleMessage sampleState 1
        ⟨none, .card_moved (.num 7) (.num 1) (.num 1)⟩).1.boardData = sampleState.boardData) ∧
    (Effect.log "MOVE" "unknown" "Переместил карточку \"Flyer\" из \"Print\" в \"Orders\""
        ∈ (handleMessage { boardData := twinBoard, users := [], currentAlert := none } 1
            ⟨none, .card_moved (.num 7) (.num 2) (.num 1)⟩).2 ∧
      (handleMessage { boardData := twinBoard, users := [], currentAlert := none } 1
        ⟨none, .card_moved (.num 7) (.num 2) (.num 1)⟩).1.boardData = twinBoard) := by
  decide

/-- C16, amended. On a board with unique card ids and for a `card_moved`
message with `fromColumnId ≠ toColumnId`, if handling the message emits a MOVE
audit-log entry then the board afterwards differs from the board before. -/
theorem move_logged_changes_board (st : State) (ws : Nat) (userId : Option Ident)
    (cardId fromColumnId toColumnId : Ident)
    (huniq : uniqueCardIds st.boardData) (hne : fromColumnId ≠ toColumnId)
    (hlog : ∃ userName details, Effect.log "MOVE" userName details
      ∈ (handleMessage st ws ⟨userId, .card_moved cardId fromColumnId toColumnId⟩).2) :
    (handleMessage st ws ⟨userId, .card_moved cardId fromColumnId toColumnId⟩).1.boardData
      ≠ st.boardData := by
  obtain ⟨userName, details, hmem⟩ := hlog
  simp only [handleMessage] at hmem ⊢
  -- the three lookups of the handler succeeded
  cases hf : st.boardData.columns.find? (isColumn fromColumnId) with
  | none => simp [hf] at hmem
  | some f =>
    cases ht : st.boardData.columns.find? (isColumn toColumnId) with
    | none =>
      rw [hf, ht] at hmem
      cases hcard : f.cards.find? (hasId cardId) <;> simp [hcard] at hmem
    | some t =>
      cases hcard : f.cards.find? (hasId cardId) with
      | none => simp [hf, ht, hcard] at hmem
      | some c0 =>
        have hfmem : f ∈ st.boardData.columns := List.mem_of_find?_eq_some hf
        have hfid : f.id = fromColumnId := by simpa [isColumn] using List.find?_some hf
        have hfholds : holdsCard cardId f = true := by
          rw [holdsCard_iff]
          exact ⟨c0, List.mem_of_find?_eq_some hcard,
            by simpa [hasId] using List.find?_some hcard⟩
        -- the source found by the search is that column
        cases hsrc : findSource cardId st.boardData.columns with
        | none =>
          rw [findSource_eq_none_iff] at hsrc
          obtain ⟨d, hd, hdid⟩ := (holdsCard_iff cardId f).mp hfholds
          exact absurd hdid (hsrc f hfmem d hd)
        | some sc =>
          obtain ⟨s, c⟩ := sc
          obtain ⟨hfs, _⟩ := findSource_eq_some cardId _ s c hsrc
          have hsf : s = f := eq_of_both_hold st.boardData huniq cardId s f
            (List.mem_of_find?_eq_some hfs) hfmem (List.find?_some hfs) hfholds
          have hsne : s.id ≠ toColumnId := by rw [hsf, hfid]; exact hne
          rw [applyCardMove_moved st.boardData cardId fromColumnId toColumnId s c hsrc hsne]
          -- cards in columns with the target id: one more than before
          have hrem := sum_map_modifyFirst (holdsCard cardId) (removeCard cardId)
            (fun col => if col.id = toColumnId then col.cards.length else 0)
            st.boardData.columns s hfs
          have htgt : ∃ t1, (modifyFirst (holdsCard cardId) (removeCard cardId)
              st.boardData.columns).find? (isColumn toColumnId) = some t1 := by
            apply Option.isSome_iff_exists.mp
            rw [find?_isColumn_modifyFirst toColumnId (holdsCard cardId) (removeCard cardId)
              (fun _ => rfl), ht]
            rfl
          obtain ⟨t1, ht1⟩ := htgt
          have ht1id : t1.id = toColumnId := by simpa [isColumn] using List.find?_some ht1
          have hpush := sum_map_modifyFirst (isColumn toColumnId) (pushCard c)
            (fun col => if col.id = toColumnId then col.cards.length else 0) _ t1 ht1
          simp only [removeCard, hsne, if_false] at hrem
          simp only [pushCard, ht1id, if_true, List.length_append, List.length_singleton]
            at hpush
          intro heq
          have hcols : modifyFirst (isColumn toColumnId) (pushCard c)
              (modifyFirst (holdsCard cardId) (removeCard cardId) st.boardData.columns)
              = st.boardData.columns := congrArg Board.columns heq
          rw [hcols] at hpush
          omega

/-- Witness of C16 amended: card 7 is moved from column 1 to column 2 of the
sample board. -/
theorem move_logged_changes_board_witness :
    (handleMessage sampleState 1
      ⟨none, .card_moved (.num 7) (.num 1) (.num 2)⟩).1.boardData ≠ sampleState.boardData :=
  move_logged_changes_board sampleState 1 none (.num 7) (.num 1) (.num 2)
    (by decide) (by decide)
    ⟨"unknown", "Переместил карточку \"Flyer\" из \"Orders\" в \"Print\"", by decide⟩

/-! ## WIP limits -/

theorem modifyFirst_map {α : Type} (p : α → Bool) (f : α → α) (g : α → α) (l : List α)
    (hp : ∀ x, p (g x) = p x) (hf : ∀ x, f (g x) = g (f x)) :
    modifyFirst p f (l.map g) = (modifyFirst p f l).map g := by
  induction l with
  | nil => rfl
  | cons x xs ih =>
    by_cases hx : p x = true
    · simp [modifyFirst, hp, hx, hf]
    · simp [modifyFirst, hp, hx, ih]

theorem findSource_clearLimits (cardId : Ident) (cols : List Column) :
    findSource cardId (cols.map clearLimit)
      = (findSource cardId cols).map (fun sc => (clearLimit sc.1, sc.2)) := by
  induction cols with
  | nil => rfl
  | cons col rest ih =>
    cases hc : col.cards.find? (hasId cardId) with
    | none =>
      have hc2 : (clearLimit col).cards.find? (hasId cardId) = none := hc
      simp only [List.map_cons, findSource, hc, hc2, ih]
    | some c =>
      have hc2 : (clearLimit col).cards.find? (hasId cardId) = some c := hc
      simp only [List.map_cons, findSource, hc, hc2, Option.map_some']

theorem applyCardMove_clearLimits (b : Board) (cardId fromColumnId toColumnId : Ident) :
    applyCardMove (clearLimits b) cardId fromColumnId toColumnId
      = clearLimits (applyCardMove b cardId fromColumnId toColumnId) := by
  unfold applyCardMove
  simp only [clearLimits, findSource_clearLimits]
  cases hsrc : findSource cardId b.columns with
  | none => rfl
  | some sc =>
    obtain ⟨s, c⟩ := sc
    simp only [Option.map_some']
    have hid : (clearLimit s).id = s.id := rfl
    by_cases hne : s.id = toColumnId
    · simp [hid, hne]
    · simp only [hid, ne_eq, hne, not_false_eq_true, if_true]
      rw [modifyFirst_map (holdsCard cardId) (removeCard cardId) clearLimit b.columns
          (fun _ => rfl) (fun _ => rfl),
        modifyFirst_map (isColumn toColumnId) (pushCard c) clearLimit _
          (fun _ => rfl) (fun _ => rfl)]

theorem cards_clearLimits (b : Board) :
    (clearLimits b).columns.map (fun col => col.cards) = b.columns.map (fun col => col.cards) := by
  simp only [clearLimits, List.map_map]
  rfl

theorem find?_isColumn_clearLimits (columnId : Ident) (cols : List Column) :
    (cols.map clearLimit).find? (isColumn columnId)
      = (cols.find? (isColumn columnId)).map clearLimit := by
  induction cols with
  | nil => rfl
  | cons col rest ih =>
    have hid : isColumn columnId (clearLimit col) = isColumn columnId col := rfl
    by_cases hc : isColumn columnId col = true
    · simp only [List.map_cons, List.find?_cons, hid, hc, Option.map_some']
    · have hc2 : isColumn columnId col = false := by simpa using hc
      simp only [List.map_cons, List.find?_cons, hid, hc2, ih]

/-- C17. WIP limits are advisory: for every `card_moved` and `card_created`
message, the card sequences of the board after handling it are those obtained
from the same board with every `wipLimit` made absent; a `card_created` for an
existing column appends the card whatever the limit and the number of cards. -/
theorem wip_limits_advisory (st : State) (ws : Nat) (data : Msg)
    (hbody : (∃ cardId fromColumnId toColumnId,
        data.body = .card_moved cardId fromColumnId toColumnId) ∨
      (∃ columnId card, data.body = .card_created columnId card)) :
    (handleMessage { st with boardData := clearLimits st.boardData } ws
        data).1.boardData.columns.map (fun col => col.cards)
      = (handleMessage st ws data).1.boardData.columns.map (fun col => col.cards) ∧
    (∀ columnId card pre K post, data.body = .card_created columnId card →
      st.boardData.columns = pre ++ K :: post → (∀ col ∈ pre, col.id ≠ columnId) →
      K.id = columnId →
      (handleMessage st ws data).1.boardData.columns
        = pre ++ { K with cards := K.cards ++ [card] } :: post) := by
  obtain ⟨userId, body⟩ := data
  constructor
  · rcases hbody with ⟨cardId, fromColumnId, toColumnId, hb⟩ | ⟨columnId, card, hb⟩
    · simp only at hb
      subst hb
      simp only [handleMessage]
      rw [applyCardMove_clearLimits, cards_clearLimits]
    · simp only at hb
      subst hb
      simp only [handleMessage]
      have hfind : (clearLimits st.boardData).columns.find? (isColumn columnId)
          = (st.boardData.columns.find? (isColumn columnId)).map clearLimit :=
        find?_isColumn_clearLimits columnId st.boardData.columns
      cases hf : st.boardData.columns.find? (isColumn columnId) with
      | none =>
        rw [hf] at hfind
        simp only [hfind, Option.map_none']
        exact cards_clearLimits st.boardData
      | some K =>
        rw [hf] at hfind
        simp only [hfind, Option.map_some']
        show (modifyFirst (isColumn columnId) (pushCard card)
          (st.boardData.columns.map clearLimit)).map (fun col => col.cards) = _
        rw [modifyFirst_map (isColumn columnId) (pushCard card) clearLimit
          st.boardData.columns (fun _ => rfl) (fun _ => rfl), List.map_map]
        rfl
  · intro columnId card pre K post hb hcols hpre hK
    simp only at hb
    subst hb
    obtain ⟨hfind, hmod⟩ := find?_isColumn_split columnId pre post K hpre hK
    simp only [handleMessage, hcols, hfind, hmod, pushCard]

/-- Witness of C17: card 7 is moved to column 2 of the sample board, which has
`wipLimit` 1 and already holds one card; it ends up holding two. -/
theorem wip_limits_advisory_witness :
    (handleMessage { sampleState with boardData := clearLimits sampleState.boardData } 1
        ⟨none, .card_moved (.num 7) (.num 1) (.num 2)⟩).1.boardData.columns.map
        (fun col => col.cards)
      = (handleMessage sampleState 1
          ⟨none, .card_moved (.num 7) (.num 1) (.num 2)⟩).1.boardData.columns.map
          (fun col => col.cards) ∧
    (handleMessage sampleState 1
        ⟨none, .card_moved (.num 7) (.num 1) (.num 2)⟩).1.boardData.columns.map
        (fun col => (col.wipLimit, col.cards.length))
      = [(none, 1), (some 1, 2), (none, 0)] :=
  ⟨(wip_limits_advisory sampleState 1 ⟨none, .card_moved (.num 7) (.num 1) (.num 2)⟩
      (Or.inl ⟨_, _, _, rfl⟩)).1, by decide⟩

/-! ## One template -/

/-- C18. One default template: the board `loadBoardData` returns when there is
no snapshot, or when reading or parsing it fails, is the board that
`reset_board` installs: the same columns in the same order with the same id,
title, wipLimit, cards and collapsed values. -/
theorem load_default_is_reset_template (message : String) (st : State) (ws : Nat)
    (userId : Option Ident) :
    (loadBoardData .absent).1 = (handleMessage st ws ⟨userId, .reset_board⟩).1.boardData ∧
    (loadBoardData (.failing message)).1
      = (handleMessage st ws ⟨userId, .reset_board⟩).1.boardData ∧
    (initialState .absent).boardData.columns.map
        (fun col => (col.id, col.title, col.wipLimit, col.cards, col.collapsed))
      = (handleMessage st ws ⟨userId, .reset_board⟩).1.boardData.columns.map
        (fun col => (col.id, col.title, col.wipLimit, col.cards, col.collapsed)) := by
  have h : loadDefault = defaultBoard := by decide
  refine ⟨h, h, ?_⟩
  show loadDefault.columns.map _ = defaultBoard.columns.map _
  rw [h]

/-! ## Frame of the card messages -/

theorem map_frame_modifyFirst (p : Column → Bool) (f : Column → Column)
    (hf : ∀ col, frame (f col) = frame col) (cols : List Column) :
    (modifyFirst p f cols).map frame = cols.map frame := by
  induction cols with
  | nil => rfl
  | cons col rest ih =>
    by_cases hp : p col = true
    · simp [modifyFirst, hp, hf]
    · simp [modifyFirst, hp, ih]

theorem getElem?_modifyFirst_of_not {α : Type} (p : α → Bool) (f : α → α) (l : List α)
    (k : Nat) (x : α) (hk : l[k]? = some x) (hx : p x = false) :
    (modifyFirst p f l)[k]? = some x := by
  induction l generalizing k with
  | nil => simp at hk
  | cons y ys ih =>
    cases k with
    | zero =>
      simp at hk
      subst hk
      simp [modifyFirst, hx]
    | succ k =>
      have hk2 : ys[k]? = some x := by simpa using hk
      by_cases hy : p y = true
      · simp [modifyFirst, hy, hk2]
      · simp [modifyFirst, hy, ih k hk2]

theorem map_frame_applyCardMove (b : Board) (cardId fromColumnId toColumnId : Ident) :
    (applyCardMove b cardId fromColumnId toColumnId).columns.map frame
      = b.columns.map frame := by
  unfold applyCardMove
  split
  · rfl
  · split
    · simp only []
      rw [map_frame_modifyFirst (isColumn toColumnId) (pushCard _) (fun _ => rfl),
        map_frame_modifyFirst (holdsCard cardId) (removeCard cardId) (fun _ => rfl)]
    · rfl

theorem getElem?_applyCardMove_of_not (b : Board) (cardId fromColumnId toColumnId : Ident)
    (k : Nat) (col : Column) (hk : b.columns[k]? = some col)
    (hholds : holdsCard cardId col = false) (hid : col.id ≠ toColumnId) :
    (applyCardMove b cardId fromColumnId toColumnId).columns[k]? = some col := by
  unfold applyCardMove
  split
  · exact hk
  · split
    · simp only []
      apply getElem?_modifyFirst_of_not _ _ _ k col _ (by simpa [isColumn] using hid)
      exact getElem?_modifyFirst_of_not _ _ _ k col hk hholds
    · exact hk

theorem columns_of_named (st : State) (ws : Nat) (userId : Option Ident) (body : MsgBody)
    (columnId : Ident)
    (hbody : (∃ card, body = .card_created columnId card) ∨
      (∃ card, body = .card_updated columnId card) ∨
      (∃ cardId, body = .card_deleted columnId cardId) ∨
      (∃ cards, body = .card_reordered columnId cards)) :
    (handleMessage st ws ⟨userId, body⟩).1.boardData.columns = st.boardData.columns ∨
    ∃ f : Column → Column, (∀ col, frame (f col) = frame col) ∧
      (handleMessage st ws ⟨userId, body⟩).1.boardData.columns
        = modifyFirst (isColumn columnId) f st.boardData.columns := by
  rcases hbody with ⟨card, rfl⟩ | ⟨card, rfl⟩ | ⟨cardId, rfl⟩ | ⟨cards, rfl⟩
  · simp only [handleMessage]
    split
    · exact Or.inr ⟨pushCard card, fun _ => rfl, rfl⟩
    · exact Or.inl rfl
  · simp only [handleMessage]
    split
    · split
      · exact Or.inr ⟨replaceCard card, fun _ => rfl, rfl⟩
      · exact Or.inl rfl
    · exact Or.inl rfl
  · simp only [handleMessage]
    split
    · exact Or.inr ⟨removeCard cardId, fun _ => rfl, rfl⟩
    · exact Or.inl rfl
  · simp only [handleMessage]
    split
    · exact Or.inr ⟨fun col => { col with cards := cards }, fun _ => rfl, rfl⟩
    · exact Or.inl rfl

/-- C20. Column structure is a frame of every message other than
`reset_board`: the board afterwards has the same columns in the same order
with the same id, title, wipLimit and collapsed values; for `card_created`,
`card_updated`, `card_deleted` and `card_reordered` every column whose id is
not the named `columnId` is unchanged; for `card_moved` every column that
neither held a card with the id nor has id `toColumnId` is unchanged. -/
theorem column_frame (st : State) (ws : Nat) (data : Msg)
    (hnot : data.body ≠ .reset_board) :
    (handleMessage st ws data).1.boardData.columns.map frame
      = st.boardData.columns.map frame ∧
    (∀ columnId,
      ((∃ card, data.body = .card_created columnId card) ∨
       (∃ card, data.body = .card_updated columnId card) ∨
       (∃ cardId, data.body = .card_deleted columnId cardId) ∨
       (∃ cards, data.body = .card_reordered columnId cards)) →
      ∀ (k : Nat) (col : Column), st.boardData.columns[k]? = some col → col.id ≠ columnId →
        (handleMessage st ws data).1.boardData.columns[k]? = some col) ∧
    (∀ cardId fromColumnId toColumnId,
      data.body = .card_moved cardId fromColumnId toColumnId →
      ∀ (k : Nat) (col : Column), st.boardData.columns[k]? = some col →
        (∀ c ∈ col.cards, c.id ≠ cardId) → col.id ≠ toColumnId →
        (handleMessage st ws data).1.boardData.columns[k]? = some col) := by
  obtain ⟨userId, body⟩ := data
  refine ⟨?_, ?_, ?_⟩
  · cases body with
    | reset_board => exact absurd rfl hnot
    | user_joined user => rfl
    | get_board => rfl
    | alert_created t => rfl
    | alert_cleared => rfl
    | other type => rfl
    | card_moved cardId fromColumnId toColumnId =>
      simp only [handleMessage]
      exact map_frame_applyCardMove st.boardData cardId fromColumnId toColumnId
    | card_created columnId card =>
      rcases columns_of_named st ws userId _ columnId (Or.inl ⟨card, rfl⟩)
        with h | ⟨f, hf, h⟩
      · rw [h]
      · rw [h]; exact map_frame_modifyFirst _ f hf _
    | card_updated columnId card =>
      rcases columns_of_named st ws userId _ columnId (Or.inr (Or.inl ⟨card, rfl⟩))
        with h | ⟨f, hf, h⟩
      · rw [h]
      · rw [h]; exact map_frame_modifyFirst _ f hf _
    | card_deleted columnId cardId =>
      rcases columns_of_named st ws userId _ columnId (Or.inr (Or.inr (Or.inl ⟨cardId, rfl⟩)))
        with h | ⟨f, hf, h⟩
      · rw [h]
      · rw [h]; exact map_frame_modifyFirst _ f hf _
    | card_reordered columnId cards =>
      rcases columns_of_named st ws userId _ columnId (Or.inr (Or.inr (Or.inr ⟨cards, rfl⟩)))
        with h | ⟨f, hf, h⟩
      · rw [h]
      · rw [h]; exact map_frame_modifyFirst _ f hf _
  · intro columnId hbody k col hk hid
    have hp : isColumn columnId col = false := by simpa [isColumn] using hid
    rcases columns_of_named st ws userId body columnId hbody with h | ⟨f, _, h⟩
    · rw [h]; exact hk
    · rw [h]; exact getElem?_modifyFirst_of_not _ f _ k col hk hp
  · intro cardId fromColumnId toColumnId hb k col hk hcards hid
    simp only at hb
    subst hb
    simp only [handleMessage]
    exact getElem?_applyCardMove_of_not st.boardData cardId fromColumnId toColumnId k col hk
      ((holdsCard_eq_false_iff cardId col).mpr hcards) hid

/-- Witness of C20: card 7 is moved from column 1 to column 2 of the sample
board; the frame is kept and column 3 (position 2) is unchanged. -/
theorem column_frame_witness :
    (handleMessage sampleState 1
      ⟨none, .card_moved (.num 7) (.num 1) (.num 2)⟩).1.boardData.columns.map frame
      = sampleState.boardData.columns.map frame ∧
    (handleMessage sampleState 1
      ⟨none, .card_moved (.num 7) (.num 1) (.num 2)⟩).1.boardData.columns[2]?
      = some { id := .num 3, title := "Store", wipLimit := none, cards := [],
               collapsed := true } :=
  have h := column_frame sampleState 1 ⟨none, .card_moved (.num 7) (.num 1) (.num 2)⟩
    (by decide)
  ⟨h.1, h.2.2 (.num 7) (.num 1) (.num 2) rfl 2 _ rfl (by decide) (by decide)⟩

end Kanban
